import Mathlib

/-
  Verification of the map decoding / walkability / pathfinding engine
  (dump.py, pyAIAgent/game/rom.py, tools/map_dumper.py).

  The Python code is shallowly embedded below.  Machine bytes are Nat
  (values 0..255 as produced by indexing a bytes object), Python ints are
  Int, byte buffers are List Nat, grids are List (List Bool).  Functions
  that can raise exceptions (ValueError / IndexError) are embedded as
  Except String valued functions; callers that catch exceptions map
  errors to none.  The two while-loops of the BFS are embedded with an
  explicit fuel parameter; the fuel values used by the entry point are
  proved sufficient below (lemmas bfsLoop_spec / backtrack_spec), so the
  fuel-exhaustion branch is unreachable, matching the always-terminating
  Python loops.
-/

set_option maxRecDepth 4000

/-! ## Generic list helpers -/

/-- Python slice data[a:b] for 0 <= a, b (clamping at the ends like Python). -/
def pySlice (l : List Nat) (a b : Nat) : List Nat := (l.take b).drop a

/-- Python bytes.ljust(16, zero byte]): right-pad with 0x00 up to length 16. -/
def ljust16 (l : List Nat) : List Nat := l ++ List.replicate (16 - l.length) 0

/-! ## Low-level ROM helpers (dump.py read_u8 / read_u16 / gb_to_file_offset) -/

/-- read_u8: raises IndexError when the offset is outside the buffer. -/
def read_u8 (data : List Nat) (offset : Int) : Except String Nat :=
  if offset < 0 ∨ (data.length : Int) ≤ offset then .error "read_u8: offset out of bounds"
  else .ok (data.getD offset.toNat 0)

/-- read_u16: little-endian 16-bit read, raises IndexError out of bounds. -/
def read_u16 (data : List Nat) (offset : Int) : Except String Nat :=
  if offset < 0 ∨ (data.length : Int) ≤ offset + 1 then .error "read_u16: offset out of bounds"
  else .ok (data.getD offset.toNat 0 ||| (data.getD (offset.toNat + 1) 0 <<< 8))

/-- gb_to_file_offset: bank-switched pointer to file offset. -/
def gb_to_file_offset (ptr bank : Int) : Except String Int :=
  if ptr < 0x4000 then .ok ptr
  else if bank < 0 then .error "Invalid negative bank number"
  else .ok (bank * 0x4000 + (ptr - 0x4000))

/-! ## Map loading (dump.py load_map) -/

/-- load_map: resolve map id to (tileset id, width, height, tile map bytes).
    The tile map is truncated to the available ROM bytes and right-padded
    with 0x00 to width*height. -/
def load_map (rom : List Nat) (map_id : Int) :
    Except String (Nat × Nat × Nat × List Nat) :=
  let ptr_table : Int := 0x01AE
  let bank_table : Int := 0xC23D
  let ptr_offset := ptr_table + map_id * 2
  let bank_offset := bank_table + map_id
  if (rom.length : Int) ≤ ptr_offset + 1 ∨ (rom.length : Int) ≤ bank_offset then
    .error "Map ID results in table offsets outside ROM bounds."
  else
  Except.bind (read_u16 rom ptr_offset) fun ptr =>
  Except.bind (read_u8 rom bank_offset) fun bank =>
  if rom.length / 0x4000 ≤ bank then
    .error "Map header bank is out of range for ROM size."
  else
  Except.bind (gb_to_file_offset ptr bank) fun header_off =>
  if (rom.length : Int) < header_off + 5 then
    .error "Map header offset is out of bounds."
  else
  Except.bind (read_u8 rom header_off) fun tileset_id =>
  Except.bind (read_u8 rom (header_off + 1)) fun height =>
  Except.bind (read_u8 rom (header_off + 2)) fun width =>
  Except.bind (read_u16 rom (header_off + 3)) fun map_data_ptr =>
  Except.bind (gb_to_file_offset map_data_ptr bank) fun map_data_off =>
  if width = 0 ∨ height = 0 then
    .error "Map has invalid dimensions."
  else
  let expected_size := width * height
  let size : Nat :=
    if (rom.length : Int) < map_data_off + expected_size then
      (max 0 ((rom.length : Int) - map_data_off)).toNat
    else expected_size
  let map_data := pySlice rom map_data_off.toNat (map_data_off.toNat + size)
  let map_data :=
    if map_data.length < expected_size then
      map_data ++ List.replicate (expected_size - map_data.length) 0
    else map_data
  .ok (tileset_id, width, height, map_data)

/-! ## Tileset header loading (dump.py load_tileset_header) -/

/-- load_tileset_header: (bank, blocksPtr, tilesPtr, collisionPtr, interactionPtr). -/
def load_tileset_header (rom : List Nat) (tileset_id : Nat) :
    Except String (Nat × Nat × Nat × Nat × Nat) :=
  let base : Int := 0xC7BE
  let header_size : Int := 12
  let header_table_offset := base + (tileset_id : Int) * header_size
  if (rom.length : Int) < header_table_offset + header_size then
    .error "Tileset ID results in header offset outside ROM bounds."
  else
  Except.bind (read_u8 rom header_table_offset) fun tileset_bank =>
  Except.bind (read_u16 rom (header_table_offset + 1)) fun blocks_ptr =>
  Except.bind (read_u16 rom (header_table_offset + 3)) fun tiles_ptr =>
  Except.bind (read_u16 rom (header_table_offset + 5)) fun collision_ptr =>
  Except.bind (read_u16 rom (header_table_offset + 7)) fun interaction_ptr =>
  if rom.length / 0x4000 ≤ tileset_bank then
    .error "Tileset header bank is out of range for ROM size."
  else .ok (tileset_bank, blocks_ptr, tiles_ptr, collision_ptr, interaction_ptr)

/-! ## Collision table (the while-loop shared by find_path / dump_minimal_map / main) -/

/-- Sequential bytes from idx up to a 0xFF sentinel or the end of the ROM. -/
def collectCollision (rom : List Nat) (idx : Nat) : List Nat :=
  if h : idx < rom.length then
    let v := rom.getD idx 0
    if v = 0xFF then [] else v :: collectCollision rom (idx + 1)
  else []
termination_by rom.length - idx
decreasing_by simp_wf; omega

/-! ## Walkability grid builder (dump.py build_quadrant_walkability) -/

/-- One imperative update grid[y][x] = v (list out-of-range writes cannot
    happen in the builder because of its bounds test, and are no-ops). -/
def setCell (g : List (List Bool)) (y x : Nat) (v : Bool) : List (List Bool) :=
  g.set y ((g.getD y []).set x v)

/-- Value of grid[y][x] (grids built below are rectangular, so in-range
    reads agree with Python indexing). -/
def gridAt (g : List (List Bool)) (x y : Nat) : Bool := (g.getD y []).getD x false

/-- Iteration order of the two inner quadrant loops: qr outer, qc inner. -/
def quadPairs : List (Nat × Nat) := [(0, 0), (0, 1), (1, 0), (1, 1)]

/-- Body of the quadrant loop of build_quadrant_walkability. -/
def applyQuad (walkable_tiles : List Nat) (rows cols blockY blockX : Nat)
    (subtiles : List Nat) (g : List (List Bool)) (q : Nat × Nat) : List (List Bool) :=
  let qr := q.1
  let qc := q.2
  let collision_tile_index_in_block := (qr * 2 + 1) * 4 + (qc * 2 + 0)
  if subtiles.length ≤ collision_tile_index_in_block then g
  else
    let tid := subtiles.getD collision_tile_index_in_block 0
    let grid_y := blockY * 2 + qr
    let grid_x := blockX * 2 + qc
    if grid_y < rows ∧ grid_x < cols then
      setCell g grid_y grid_x (decide (tid ∈ walkable_tiles))
    else g

/-- Body of the block loop of build_quadrant_walkability. -/
def processBlock (walkable_tiles : List Nat) (rows cols width : Nat)
    (map_data : List Nat) (blocks : List (List Nat))
    (g : List (List Bool)) (blockY blockX : Nat) : List (List Bool) :=
  let map_idx := blockY * width + blockX
  if map_data.length ≤ map_idx then g
  else
    let bidx := map_data.getD map_idx 0
    if blocks.length ≤ bidx then g
    else
      let subtiles := blocks.getD bidx []
      if subtiles.length < 16 then g
      else quadPairs.foldl (applyQuad walkable_tiles rows cols blockY blockX subtiles) g

/-- build_quadrant_walkability: boolean quadrant grid of height*2 rows and
    width*2 columns. -/
def build_quadrant_walkability (width height : Nat) (map_data : List Nat)
    (blocks : List (List Nat)) (walkable_tiles : List Nat) : List (List Bool) :=
  let cols := width * 2
  let rows := height * 2
  let init := List.replicate rows (List.replicate cols false)
  (List.range height).foldl (fun g blockY =>
    (List.range width).foldl (fun g blockX =>
      processBlock walkable_tiles rows cols width map_data blocks g blockY blockX) g) init

/-! ## Special feature classifier (dump.py module constant + dump_minimal_map loop) -/

/-- Module-level constant SPECIAL_FEATURE_TILE_IDS of dump.py. -/
def SPECIAL_FEATURE_TILE_IDS : List Nat :=
  [0x04, 0x05, 0x0C, 0x0D, 0x14, 0x15, 0x1C, 0x1D, 0x64, 0x65, 0x6C, 0x6D,
   0x66, 0x67, 0x6E, 0x6F, 0x7B,
   0x5A, 0x5B, 0x5C, 0x5D,
   0x30, 0x31,
   0x32, 0x33,
   0x3A, 0x3B,
   0x70, 0x71, 0x78, 0x79,
   0x0E, 0x0F,
   0x82, 0x83,
   0x0A, 0x0B, 0x1A, 0x1B]

/-- The four subtile indices of the 2x2 region of quadrant (gqy, gqx). -/
def quadIndices (gqy gqx : Nat) : List Nat :=
  [(gqy * 2 + 0) * 4 + (gqx * 2 + 0), (gqy * 2 + 0) * 4 + (gqx * 2 + 1),
   (gqy * 2 + 1) * 4 + (gqx * 2 + 0), (gqy * 2 + 1) * 4 + (gqx * 2 + 1)]

/-- The all_special flag of the classifier loop: every one of the 4 subtile
    ids exists (index inside the block bytes) and is a special feature id. -/
def allSpecial (block_definition : List Nat) (gqy gqx : Nat) : Bool :=
  (quadIndices gqy gqx).all fun i =>
    decide (i < block_definition.length) &&
    decide (block_definition.getD i 0 ∈ SPECIAL_FEATURE_TILE_IDS)

/-- Body of the quadrant loop of the special classifier. -/
def specialStep (grid : List (List Bool)) (grid_h grid_w : Nat)
    (block_definition : List Nat) (blockY blockX : Nat)
    (acc : List (Nat × Nat)) (q : Nat × Nat) : List (Nat × Nat) :=
  let gqy := q.1
  let gqx := q.2
  let gx := blockX * 2 + gqx
  let gy := blockY * 2 + gqy
  if gy < grid_h ∧ gx < grid_w then
    let is_walkable_here := gridAt grid gx gy
    if allSpecial block_definition gqy gqx ∧ is_walkable_here = true then
      acc ++ [(gx, gy)]
    else acc
  else acc

/-- Body of the block loop of the special classifier. -/
def specialBlock (grid : List (List Bool)) (grid_h grid_w : Nat)
    (map_data : List Nat) (blocks : List (List Nat)) (width : Nat)
    (acc : List (Nat × Nat)) (blockY blockX : Nat) : List (Nat × Nat) :=
  let map_idx := blockY * width + blockX
  if map_data.length ≤ map_idx then acc
  else
    let bidx := map_data.getD map_idx 0
    if blocks.length ≤ bidx then acc
    else
      let block_definition := blocks.getD bidx []
      if block_definition.length < 16 then acc
      else quadPairs.foldl
        (specialStep grid grid_h grid_w block_definition blockY blockX) acc

/-- The walkable_special_quadrants set computed by dump_minimal_map (and by
    main / calculate_walkable_special_quadrants), as a duplicate-free list. -/
def walkable_special_quadrants (width height : Nat) (map_data : List Nat)
    (blocks : List (List Nat)) (grid : List (List Bool)) : List (Nat × Nat) :=
  let grid_h := grid.length
  let grid_w := (grid.headD []).length
  (List.range height).foldl (fun acc blockY =>
    (List.range width).foldl
      (fun acc blockX => specialBlock grid grid_h grid_w map_data blocks width acc blockY blockX)
      acc) []

/-! ## BFS pathfinder (dump.py _bfs_find_path) -/

/-- Grid coordinates are Python int pairs (x, y). -/
abbrev Cell := Int × Int

/-- Expansion order of the BFS: Right, Left, Down, Up, with the move letter. -/
def dirs : List ((Int × Int) × Char) :=
  [((1, 0), 'R'), ((-1, 0), 'L'), ((0, 1), 'D'), ((0, -1), 'U')]

/-- Coordinate displacement. -/
def cellStep (c : Cell) (d : Int × Int) : Cell := (c.1 + d.1, c.2 + d.2)

/-- Bounds test 0 <= x < cols and 0 <= y < rows. -/
def inb (cols rows : Nat) (c : Cell) : Prop :=
  0 ≤ c.1 ∧ c.1 < (cols : Int) ∧ 0 ≤ c.2 ∧ c.2 < (rows : Int)

instance (cols rows : Nat) (c : Cell) : Decidable (inb cols rows c) :=
  inferInstanceAs (Decidable (0 ≤ c.1 ∧ c.1 < (cols : Int) ∧ 0 ≤ c.2 ∧ c.2 < (rows : Int)))

/-- Value grid[y][x] of a cell already known to be in bounds. -/
def cellWalk (g : List (List Bool)) (c : Cell) : Bool :=
  (g.getD c.2.toNat []).getD c.1.toNat false

/-- The predecessor dictionary: insertion at the front, single binding per
    key (a key is inserted only when absent, mirroring the dict). -/
abbrev PrevMap := List (Cell × Option (Cell × Char))

/-- Dictionary lookup. -/
def plookup (p : PrevMap) (c : Cell) : Option (Option (Cell × Char)) :=
  match p with
  | [] => none
  | (k, v) :: rest => if k = c then some v else plookup rest c

/-- One direction of the BFS neighbor expansion, updating (queue, prev). -/
def expandOne (cols rows : Nat) (g : List (List Bool)) (c : Cell)
    (qp : List Cell × PrevMap) (d : (Int × Int) × Char) : List Cell × PrevMap :=
  let n := cellStep c d.1
  if inb cols rows n ∧ cellWalk g n = true ∧ plookup qp.2 n = none then
    (qp.1 ++ [n], (n, some (c, d.2)) :: qp.2)
  else qp

/-- The BFS while-loop.  Result none is fuel exhaustion (proved unreachable
    for the fuel used by _bfs_find_path); some none is the NotFound exit;
    some (some p) is the Found exit with the final predecessor map. -/
def bfsLoop (cols rows : Nat) (g : List (List Bool)) (e : Cell) :
    Nat → List Cell → PrevMap → Option (Option PrevMap)
  | 0, _, _ => none
  | _ + 1, [], _ => some none
  | fuel + 1, c :: rest, p =>
    if c = e then some (some p)
    else
      let qp := dirs.foldl (expandOne cols rows g c) (rest, p)
      bfsLoop cols rows g e fuel qp.1 qp.2

/-- The path reconstruction while-loop, accumulating (actions, coords) in
    walk order from the end backwards, exactly like the Python loop.  The
    none results (fuel exhaustion / missing key) are proved unreachable. -/
def backtrack (p : PrevMap) : Nat → Cell → List Char × List Cell →
    Option (List Char × List Cell)
  | 0, _, _ => none
  | fuel + 1, cur, acc =>
    match plookup p cur with
    | none => none
    | some none => some acc
    | some (some (pc, a)) => backtrack p fuel pc (acc.1 ++ [a], acc.2 ++ [cur])

/-- dump.py _bfs_find_path. -/
def _bfs_find_path (g : List (List Bool)) (s e : Cell) : Option (String × List Cell) :=
  if g.length = 0 ∨ (g.headD []).length = 0 then none
  else
    let rows := g.length
    let cols := (g.headD []).length
    if ¬ inb cols rows s then none
    else if ¬ inb cols rows e then none
    else if cellWalk g e = false then none
    else
      match bfsLoop cols rows g e (rows * cols + 1) [s] [(s, none)] with
      | none => none
      | some none => none
      | some (some p) =>
        match backtrack p (p.length + 1) e ([], []) with
        | none => none
        | some (acts, coords) =>
          some (String.mk acts.reverse, (coords ++ [s]).reverse)

/-! ## Public entry point (dump.py find_path) -/

/-- Python str.join with separator ; over the characters of an action string. -/
def joinSemi : List Char → List Char
  | [] => []
  | [c] => [c]
  | c :: rest => c :: ';' :: joinSemi rest

/-- The body of find_path after the ROM file has been read into a byte
    buffer (file I/O is owned by the caller per the design).  Errors are
    the exceptions caught by the surrounding try. -/
def find_path_body (rom : List Nat) (map_id : Int) (s e : Cell) :
    Except String (Option String) :=
  Except.bind (load_map rom map_id) fun lm =>
  let tileset_id := lm.1
  let width := lm.2.1
  let height := lm.2.2.1
  let map_data := lm.2.2.2
  Except.bind (load_tileset_header rom tileset_id) fun th =>
  let bank := th.1
  let blocks_ptr := th.2.1
  let collision_ptr := th.2.2.2.1
  Except.bind (gb_to_file_offset collision_ptr bank) fun col_off =>
  if (rom.length : Int) ≤ col_off then .error "Collision pointer outside ROM."
  else
  let walkable_tiles := collectCollision rom col_off.toNat
  Except.bind (gb_to_file_offset blocks_ptr bank) fun blk_off =>
  if (rom.length : Int) ≤ blk_off then .error "Blocks pointer outside ROM."
  else
  let max_bidx := map_data.foldl Nat.max 0
  let block_count := max_bidx + 1
  let block_count :=
    if (rom.length : Int) < blk_off + block_count * 16 then
      ((rom.length : Int) - blk_off).toNat / 16
    else block_count
  let blocks := (List.range block_count).map fun i =>
    ljust16 (pySlice rom (blk_off.toNat + i * 16) (blk_off.toNat + i * 16 + 16))
  let grid := build_quadrant_walkability width height map_data blocks walkable_tiles
  match _bfs_find_path grid s e with
  | none => .ok none
  | some (actions, _coords) => .ok (some (String.mk (joinSemi actions.data ++ [';'])))

/-- dump.py find_path: all caught exceptions collapse to none. -/
def find_path (rom : List Nat) (map_id : Int) (s e : Cell) : Option String :=
  match find_path_body rom map_id s e with
  | .ok r => r
  | .error _ => none

/-! ## Crop window (tools/map_dumper.py main, cropping section) -/

/-- The clamped cell box (left, top, right, bottom) computed by main for
    --crop (cw, ch) anchored at --pos (px, py).  Python // is floor division. -/
def crop_box (grid_w grid_h : Int) (pos crop : Int × Int) : Int × Int × Int × Int :=
  let half_w := Int.fdiv crop.1 2
  let half_h := Int.fdiv crop.2 2
  let left := pos.1 - half_w
  let right := pos.1 + half_w
  let top := pos.2 - half_h
  let bottom := pos.2 + half_h
  (max 0 left, max 0 top, min (grid_w - 1) right, min (grid_h - 1) bottom)

/-- The pixel box passed to img.crop (cell size 16). -/
def crop_px_box (grid_w grid_h : Int) (pos crop : Int × Int) : Int × Int × Int × Int :=
  let b := crop_box grid_w grid_h pos crop
  (b.1 * 16, b.2.1 * 16, (b.2.2.1 + 1) * 16, (b.2.2.2 + 1) * 16)

/-- Crop decision of main: cropping happens only when both --crop and --pos
    parsed; --crop without --pos degrades to the full image (diagnostic only). -/
def crop_region (grid_w grid_h : Int) (pos crop : Option (Int × Int)) :
    Option (Int × Int × Int × Int) :=
  match crop, pos with
  | some c, some p => some (crop_box grid_w grid_h p c)
  | some _, none => none
  | none, _ => none

/-- Visible cell set of the final image: the box cells when a crop was
    applied, the whole grid otherwise. -/
def cellVisible (grid_w grid_h : Int) (pos crop : Option (Int × Int))
    (x y : Int) : Prop :=
  match crop_region grid_w grid_h pos crop with
  | none => 0 ≤ x ∧ x < grid_w ∧ 0 ≤ y ∧ y < grid_h
  | some (l, t, r, b) => l ≤ x ∧ x ≤ r ∧ t ≤ y ∧ y ≤ b

/-! ## Specification-side notions for the pathfinder claims -/

/-- Number of rows of a grid. -/
def gridRows (g : List (List Bool)) : Nat := g.length

/-- Number of columns of a grid (length of row 0, as in the Python code). -/
def gridCols (g : List (List Bool)) : Nat := (g.headD []).length

/-- Rectangular grid: every row has the length of row 0.  All grids built
    by build_quadrant_walkability are rectangular. -/
def RectGrid (g : List (List Bool)) : Prop := ∀ row ∈ g, row.length = gridCols g

/-- In bounds for a grid. -/
def InBounds (g : List (List Bool)) (c : Cell) : Prop := inb (gridCols g) (gridRows g) c

/-- One legal BFS move: a 4-connected step to an in-bounds walkable cell. -/
def StepOK (g : List (List Bool)) (c n : Cell) : Prop :=
  (∃ d ∈ dirs, n = cellStep c d.1) ∧ InBounds g n ∧ cellWalk g n = true

/-- A cell sequence from s to e in which every cell after the first is an
    in-bounds walkable cell reached by a 4-connected step. -/
def ValidSeq (g : List (List Bool)) (s e : Cell) (l : List Cell) : Prop :=
  l.head? = some s ∧ l.getLast? = some e ∧ l.Chain' (StepOK g)

/-- n is the minimum number of steps of any valid sequence from s to e. -/
def IsDist (g : List (List Bool)) (s e : Cell) (n : Nat) : Prop :=
  (∃ l, ValidSeq g s e l ∧ l.length = n + 1) ∧
  ∀ l, ValidSeq g s e l → n + 1 ≤ l.length

/-- Replay of one action letter from a cell, as described by the spec:
    R adds (1,0), L adds (-1,0), D adds (0,1), U adds (0,-1). -/
def applyAct (c : Cell) (a : Char) : Cell :=
  if a = 'R' then (c.1 + 1, c.2)
  else if a = 'L' then (c.1 - 1, c.2)
  else if a = 'D' then (c.1, c.2 + 1)
  else if a = 'U' then (c.1, c.2 - 1)
  else c

/-- Grammar ([LRUDABS](;[LRUDABS])*;?) of the emitted action strings:
    tail states after the leading letter. -/
def grammarTail : List Char → Bool
  | [] => true
  | [';'] => true
  | ';' :: c :: rest =>
    decide (c ∈ ['L', 'R', 'U', 'D', 'A', 'B', 'S']) && grammarTail rest
  | _ => false

/-- Full grammar match ([LRUDABS](;[LRUDABS])*;?). -/
def matchesGrammar (s : String) : Bool :=
  match s.data with
  | [] => false
  | c :: rest => decide (c ∈ ['L', 'R', 'U', 'D', 'A', 'B', 'S']) && grammarTail rest

/-! ## C8: crop window -/

/-- Claim C8: with a crop window (w,h) and an anchor position p supplied, the
    cropped output covers exactly the cells with x in
    [max(0, p.x - w/2), min(gridW-1, p.x + w/2)] and y in
    [max(0, p.y - h/2), min(gridH-1, p.y + h/2)] (floor halves, each axis
    clamped independently), hence at most (w+1)*(h+1) cells and never a
    coordinate outside the grid; a crop without an anchor position leaves
    the full grid visible. -/
theorem crop_box_spec :
    ∀ gw gh px py cw ch : Int, 0 ≤ cw → 0 ≤ ch →
      (crop_box gw gh (px, py) (cw, ch) =
        (max 0 (px - Int.fdiv cw 2), max 0 (py - Int.fdiv ch 2),
         min (gw - 1) (px + Int.fdiv cw 2), min (gh - 1) (py + Int.fdiv ch 2))) ∧
      (∀ l t r b, crop_box gw gh (px, py) (cw, ch) = (l, t, r, b) →
        (∀ lp tp rp bp, crop_px_box gw gh (px, py) (cw, ch) = (lp, tp, rp, bp) →
          ∀ x y : Int,
            (lp ≤ x * 16 ∧ (x + 1) * 16 ≤ rp ∧ tp ≤ y * 16 ∧ (y + 1) * 16 ≤ bp) ↔
            (l ≤ x ∧ x ≤ r ∧ t ≤ y ∧ y ≤ b)) ∧
        ((Finset.Icc l r ×ˢ Finset.Icc t b).card ≤ (cw.toNat + 1) * (ch.toNat + 1)) ∧
        (∀ x y : Int, l ≤ x → x ≤ r → t ≤ y → y ≤ b →
          0 ≤ x ∧ x < gw ∧ 0 ≤ y ∧ y < gh)) ∧
      (∀ x y : Int, cellVisible gw gh none (some (cw, ch)) x y ↔
        (0 ≤ x ∧ x < gw ∧ 0 ≤ y ∧ y < gh)) := by
  intro gw gh px py cw ch hcw hch
  have hfw : Int.fdiv cw 2 = cw / 2 := Int.fdiv_eq_ediv _ (by omega)
  have hfh : Int.fdiv ch 2 = ch / 2 := Int.fdiv_eq_ediv _ (by omega)
  refine ⟨rfl, ?_, ?_⟩
  · intro l t r b hbox
    have hl : l = max 0 (px - Int.fdiv cw 2) := by
      have := hbox.symm; simp [crop_box] at this; omega
    have ht : t = max 0 (py - Int.fdiv ch 2) := by
      have := hbox.symm; simp [crop_box] at this; omega
    have hr : r = min (gw - 1) (px + Int.fdiv cw 2) := by
      have := hbox.symm; simp [crop_box] at this; omega
    have hb : b = min (gh - 1) (py + Int.fdiv ch 2) := by
      have := hbox.symm; simp [crop_box] at this; omega
    refine ⟨?_, ?_, ?_⟩
    · intro lp tp rp bp hpx x y
      have hpx' : (l * 16, t * 16, (r + 1) * 16, (b + 1) * 16) = (lp, tp, rp, bp) := by
        rw [← hpx]; simp [crop_px_box, hbox]
      simp only [Prod.mk.injEq] at hpx'
      obtain ⟨e1, e2, e3, e4⟩ := hpx'
      subst e1; subst e2; subst e3; subst e4
      omega
    · have hcard : (Finset.Icc l r ×ˢ Finset.Icc t b).card =
          (Finset.Icc l r).card * (Finset.Icc t b).card := Finset.card_product _ _
      rw [hcard, Int.card_Icc, Int.card_Icc]
      have h1 : (r + 1 - l).toNat ≤ cw.toNat + 1 := by
        rw [hl, hr, hfw]; omega
      have h2 : (b + 1 - t).toNat ≤ ch.toNat + 1 := by
        rw [ht, hb, hfh]; omega
      exact Nat.mul_le_mul h1 h2
    · intro x y h1 h2 h3 h4
      rw [hl, hfw] at h1; rw [hr, hfw] at h2; rw [ht, hfh] at h3; rw [hb, hfh] at h4
      omega
  · intro x y
    simp [cellVisible, crop_region]

/-- Witness for C8 at a concrete grid, anchor and window. -/
theorem crop_box_spec_witness :
    (crop_box 10 10 (5, 5) (4, 4) =
      (max 0 (5 - Int.fdiv 4 2), max 0 (5 - Int.fdiv 4 2),
       min (10 - 1) (5 + Int.fdiv 4 2), min (10 - 1) (5 + Int.fdiv 4 2))) ∧
    ((Finset.Icc (3:Int) 7 ×ˢ Finset.Icc (3:Int) 7).card ≤
      ((4:Int).toNat + 1) * ((4:Int).toNat + 1)) ∧
    (0 ≤ (3:Int) ∧ (3:Int) < 10 ∧ 0 ≤ (7:Int) ∧ (7:Int) < 10) := by
  have h := crop_box_spec 10 10 5 5 4 4 (by decide) (by decide)
  refine ⟨h.1, ?_, ?_⟩
  · exact (h.2.1 3 3 7 7 (by decide)).2.1
  · exact (h.2.1 3 3 7 7 (by decide)).2.2 3 7 (by decide) (by decide) (by decide) (by decide)

/-! ## C10: totality of find_path -/

/-- Claim C10: find_path is total at the public boundary: from the byte
    buffer on (file reading is owned by the caller), every input yields
    either an action string or none, never an uncaught exception (every
    raising operation of the pipeline is Except-valued and every error is
    mapped to none by the surrounding try/except). -/
theorem find_path_total :
    ∀ rom map_id s e, find_path rom map_id s e = none ∨
      ∃ str, find_path rom map_id s e = some str := by
  intro rom map_id s e
  cases h : find_path rom map_id s e with
  | none => exact Or.inl rfl
  | some str => exact Or.inr ⟨str, rfl⟩

/-! ## C9: BFS with start = end -/

/-- Counterexample to claim C9 as stated: on the all-blocked 1x1 grid with
    p = (0,0), _bfs_find_path returns none (the end-walkability test fires
    before the search), not the empty path. -/
theorem bfs_self_counterexample :
    ¬ (_bfs_find_path [[false]] (0, 0) (0, 0) = some ("", [(0, 0)])) := by decide

/-! ## Walkability grid builder: characterization lemmas -/

/-- Rows and row lengths of a grid. -/
def GridDims (g : List (List Bool)) (rows cols : Nat) : Prop :=
  g.length = rows ∧ ∀ row ∈ g, row.length = cols

theorem gridAt_setCell_ne (g : List (List Bool)) (y x : Nat) (v : Bool)
    (gx gy : Nat) (h : gy ≠ y ∨ gx ≠ x) :
    gridAt (setCell g y x v) gx gy = gridAt g gx gy := by
  simp only [gridAt, setCell, List.getD_eq_getElem?_getD]
  rcases h with h | h
  · rw [List.getElem?_set_ne (fun hh => h hh.symm)]
  · by_cases hy : gy = y
    · subst hy
      by_cases hlen : gy < g.length
      · rw [List.getElem?_set_self hlen]
        simp only [Option.getD_some]
        rw [List.getElem?_set_ne (fun hh => h hh.symm)]
      · rw [List.set_eq_of_length_le (by omega)]
    · rw [List.getElem?_set_ne (fun hh => hy hh.symm)]

theorem gridAt_setCell_eq (g : List (List Bool)) (y x : Nat) (v : Bool)
    (hy : y < g.length) (hx : x < (g.getD y []).length) :
    gridAt (setCell g y x v) x y = v := by
  simp only [gridAt, setCell, List.getD_eq_getElem?_getD]
  rw [List.getElem?_set_self hy]
  simp only [Option.getD_some]
  rw [List.getElem?_set_self (by simpa [List.getD_eq_getElem?_getD] using hx)]
  rfl

theorem GridDims_setCell (g : List (List Bool)) (y x : Nat) (v : Bool)
    (rows cols : Nat) (hd : GridDims g rows cols) :
    GridDims (setCell g y x v) rows cols := by
  obtain ⟨h1, h2⟩ := hd
  refine ⟨by simpa [setCell] using h1, ?_⟩
  intro row hrow
  by_cases hy : y < g.length
  · rcases List.mem_or_eq_of_mem_set hrow with h | h
    · exact h2 row h
    · subst h
      rw [List.length_set, List.getD_eq_getElem g [] hy]
      exact h2 _ (List.getElem_mem hy)
  · rw [setCell, List.set_eq_of_length_le (by omega)] at hrow
    exact h2 row hrow

theorem GridDims_applyQuad (wt : List Nat) (rows cols blockY blockX : Nat)
    (st : List Nat) (g : List (List Bool)) (q : Nat × Nat)
    (hd : GridDims g rows cols) :
    GridDims (applyQuad wt rows cols blockY blockX st g q) rows cols := by
  dsimp only [applyQuad]
  split
  · exact hd
  · split
    · exact GridDims_setCell _ _ _ _ _ _ hd
    · exact hd

theorem gridAt_applyQuad_ne (wt : List Nat) (rows cols blockY blockX : Nat)
    (st : List Nat) (g : List (List Bool)) (q : Nat × Nat) (gx gy : Nat)
    (h : ¬ (gy = blockY * 2 + q.1 ∧ gx = blockX * 2 + q.2)) :
    gridAt (applyQuad wt rows cols blockY blockX st g q) gx gy = gridAt g gx gy := by
  dsimp only [applyQuad]
  split
  · rfl
  · split
    · exact gridAt_setCell_ne _ _ _ _ _ _ (by omega)
    · rfl

theorem gridAt_applyQuad_eq (wt : List Nat) (rows cols blockY blockX : Nat)
    (st : List Nat) (g : List (List Bool)) (q : Nat × Nat)
    (hd : GridDims g rows cols) (hq1 : q.1 < 2) (hq2 : q.2 < 2)
    (hy : blockY * 2 + q.1 < rows) (hx : blockX * 2 + q.2 < cols)
    (hst : 16 ≤ st.length) :
    gridAt (applyQuad wt rows cols blockY blockX st g q)
      (blockX * 2 + q.2) (blockY * 2 + q.1) =
      decide (st.getD ((q.1 * 2 + 1) * 4 + (q.2 * 2 + 0)) 0 ∈ wt) := by
  obtain ⟨h1, h2⟩ := hd
  dsimp only [applyQuad]
  rw [if_neg (by omega), if_pos ⟨hy, hx⟩]
  refine gridAt_setCell_eq _ _ _ _ (by omega) ?_
  rw [List.getD_eq_getElem g [] (by omega)]
  rw [h2 _ (List.getElem_mem (by omega))]
  exact hx

theorem GridDims_processBlock (wt : List Nat) (rows cols width : Nat)
    (md : List Nat) (blocks : List (List Nat)) (g : List (List Bool))
    (blockY blockX : Nat) (hd : GridDims g rows cols) :
    GridDims (processBlock wt rows cols width md blocks g blockY blockX) rows cols := by
  dsimp only [processBlock]
  split
  · exact hd
  · split
    · exact hd
    · split
      · exact hd
      · simp only [quadPairs, List.foldl]
        exact GridDims_applyQuad _ _ _ _ _ _ _ _
          (GridDims_applyQuad _ _ _ _ _ _ _ _
            (GridDims_applyQuad _ _ _ _ _ _ _ _
              (GridDims_applyQuad _ _ _ _ _ _ _ _ hd)))

theorem gridAt_processBlock_ne (wt : List Nat) (rows cols width : Nat)
    (md : List Nat) (blocks : List (List Nat)) (g : List (List Bool))
    (blockY blockX gx gy : Nat) (h : blockY ≠ gy / 2 ∨ blockX ≠ gx / 2) :
    gridAt (processBlock wt rows cols width md blocks g blockY blockX) gx gy =
      gridAt g gx gy := by
  dsimp only [processBlock]
  split
  · rfl
  · split
    · rfl
    · split
      · rfl
      · simp only [quadPairs, List.foldl]
        rw [gridAt_applyQuad_ne _ _ _ _ _ _ _ _ _ _ (by omega),
          gridAt_applyQuad_ne _ _ _ _ _ _ _ _ _ _ (by omega),
          gridAt_applyQuad_ne _ _ _ _ _ _ _ _ _ _ (by omega),
          gridAt_applyQuad_ne _ _ _ _ _ _ _ _ _ _ (by omega)]

theorem gridAt_processBlock_owner (wt : List Nat) (rows cols width : Nat)
    (md : List Nat) (blocks : List (List Nat)) (g : List (List Bool))
    (blockY blockX qr qc : Nat) (hd : GridDims g rows cols)
    (hqr : qr < 2) (hqc : qc < 2)
    (hy : blockY * 2 + qr < rows) (hx : blockX * 2 + qc < cols)
    (hmd : blockY * width + blockX < md.length) :
    gridAt (processBlock wt rows cols width md blocks g blockY blockX)
      (blockX * 2 + qc) (blockY * 2 + qr) =
      if md.getD (blockY * width + blockX) 0 < blocks.length ∧
          16 ≤ (blocks.getD (md.getD (blockY * width + blockX) 0) []).length then
        decide ((blocks.getD (md.getD (blockY * width + blockX) 0) []).getD
          ((qr * 2 + 1) * 4 + (qc * 2 + 0)) 0 ∈ wt)
      else gridAt g (blockX * 2 + qc) (blockY * 2 + qr) := by
  dsimp only [processBlock]
  rw [if_neg (by omega)]
  by_cases hb : blocks.length ≤ md.getD (blockY * width + blockX) 0
  · rw [if_pos hb, if_neg (fun hcon => by omega)]
  · rw [if_neg hb]
    by_cases hst : (blocks.getD (md.getD (blockY * width + blockX) 0) []).length < 16
    · rw [if_pos hst, if_neg (fun hcon => by omega)]
    · rw [if_neg hst, if_pos ⟨by omega, by omega⟩]
      simp only [quadPairs, List.foldl]
      interval_cases qr <;> interval_cases qc
      · rw [gridAt_applyQuad_ne _ _ _ _ _ _ _ _ _ _ (by omega),
          gridAt_applyQuad_ne _ _ _ _ _ _ _ _ _ _ (by omega),
          gridAt_applyQuad_ne _ _ _ _ _ _ _ _ _ _ (by omega)]
        exact gridAt_applyQuad_eq _ _ _ _ _ _ _ (0, 0) hd (by omega) (by omega)
          (by omega) (by omega) (by omega)
      · rw [gridAt_applyQuad_ne _ _ _ _ _ _ _ _ _ _ (by omega),
          gridAt_applyQuad_ne _ _ _ _ _ _ _ _ _ _ (by omega)]
        exact gridAt_applyQuad_eq _ _ _ _ _ _ _ (0, 1)
          (GridDims_applyQuad _ _ _ _ _ _ _ _ hd) (by omega) (by omega)
          (by omega) (by omega) (by omega)
      · rw [gridAt_applyQuad_ne _ _ _ _ _ _ _ _ _ _ (by omega)]
        exact gridAt_applyQuad_eq _ _ _ _ _ _ _ (1, 0)
          (GridDims_applyQuad _ _ _ _ _ _ _ _
            (GridDims_applyQuad _ _ _ _ _ _ _ _ hd)) (by omega) (by omega)
          (by omega) (by omega) (by omega)
      · exact gridAt_applyQuad_eq _ _ _ _ _ _ _ (1, 1)
          (GridDims_applyQuad _ _ _ _ _ _ _ _
            (GridDims_applyQuad _ _ _ _ _ _ _ _
              (GridDims_applyQuad _ _ _ _ _ _ _ _ hd))) (by omega) (by omega)
          (by omega) (by omega) (by omega)

theorem GridDims_foldInner (wt : List Nat) (rows cols width : Nat)
    (md : List Nat) (blocks : List (List Nat)) (blockY : Nat) :
    ∀ (l : List Nat) (g : List (List Bool)), GridDims g rows cols →
      GridDims (l.foldl (fun g bX =>
        processBlock wt rows cols width md blocks g blockY bX) g) rows cols := by
  intro l
  induction l with
  | nil => intro g hd; exact hd
  | cons bX rest ih =>
    intro g hd
    rw [List.foldl_cons]
    exact ih _ (GridDims_processBlock _ _ _ _ _ _ _ _ _ hd)

theorem gridAt_foldInner_skip (wt : List Nat) (rows cols width : Nat)
    (md : List Nat) (blocks : List (List Nat)) (blockY gx gy : Nat)
    (h : blockY ≠ gy / 2) :
    ∀ (l : List Nat) (g : List (List Bool)),
      gridAt (l.foldl (fun g bX =>
        processBlock wt rows cols width md blocks g blockY bX) g) gx gy =
      gridAt g gx gy := by
  intro l
  induction l with
  | nil => intro g; rfl
  | cons bX rest ih =>
    intro g
    rw [List.foldl_cons, ih, gridAt_processBlock_ne _ _ _ _ _ _ _ _ _ _ _ (Or.inl h)]

theorem gridAt_foldInner_notmem (wt : List Nat) (rows cols width : Nat)
    (md : List Nat) (blocks : List (List Nat)) (blockY gx gy : Nat) :
    ∀ (l : List Nat), gx / 2 ∉ l → ∀ (g : List (List Bool)),
      gridAt (l.foldl (fun g bX =>
        processBlock wt rows cols width md blocks g blockY bX) g) gx gy =
      gridAt g gx gy := by
  intro l
  induction l with
  | nil => intro _ g; rfl
  | cons bX rest ih =>
    intro hnm g
    rw [List.foldl_cons, ih (fun hc => hnm (List.mem_cons_of_mem _ hc)),
      gridAt_processBlock_ne _ _ _ _ _ _ _ _ _ _ _
        (Or.inr (fun hc => hnm (by rw [hc]; exact List.mem_cons_self _ _)))]

theorem gridAt_foldInner_owner (wt : List Nat) (rows cols width : Nat)
    (md : List Nat) (blocks : List (List Nat)) (blockY blockX qr qc : Nat)
    (hqr : qr < 2) (hqc : qc < 2)
    (hy : blockY * 2 + qr < rows) (hx : blockX * 2 + qc < cols)
    (hmd : blockY * width + blockX < md.length) :
    ∀ (l : List Nat), l.Nodup → blockX ∈ l → ∀ (g : List (List Bool)),
      GridDims g rows cols →
      gridAt (l.foldl (fun g bX =>
        processBlock wt rows cols width md blocks g blockY bX) g)
        (blockX * 2 + qc) (blockY * 2 + qr) =
      (if md.getD (blockY * width + blockX) 0 < blocks.length ∧
          16 ≤ (blocks.getD (md.getD (blockY * width + blockX) 0) []).length then
        decide ((blocks.getD (md.getD (blockY * width + blockX) 0) []).getD
          ((qr * 2 + 1) * 4 + (qc * 2 + 0)) 0 ∈ wt)
      else gridAt g (blockX * 2 + qc) (blockY * 2 + qr)) := by
  intro l
  induction l with
  | nil => intro _ hmem; exact absurd hmem (List.not_mem_nil _)
  | cons bX rest ih =>
    intro hnd hmem g hd
    rw [List.foldl_cons]
    by_cases hbx : bX = blockX
    · subst hbx
      rw [gridAt_foldInner_notmem _ _ _ _ _ _ _ _ _ rest
          (by
            have : (bX * 2 + qc) / 2 = bX := by omega
            rw [this]
            exact (List.nodup_cons.mp hnd).1) _,
        gridAt_processBlock_owner _ _ _ _ _ _ _ _ _ _ _ hd hqr hqc hy hx hmd]
    · have hmem' : blockX ∈ rest := by
        rcases List.mem_cons.mp hmem with h | h
        · exact absurd h.symm hbx
        · exact h
      rw [ih (List.nodup_cons.mp hnd).2 hmem' _
          (GridDims_processBlock _ _ _ _ _ _ _ _ _ hd),
        gridAt_processBlock_ne _ _ _ _ _ _ _ _ _ _ _
          (Or.inr (by omega))]

theorem GridDims_foldOuter (wt : List Nat) (rows cols width : Nat)
    (md : List Nat) (blocks : List (List Nat)) :
    ∀ (l : List Nat) (g : List (List Bool)), GridDims g rows cols →
      GridDims (l.foldl (fun g blockY => (List.range width).foldl (fun g bX =>
        processBlock wt rows cols width md blocks g blockY bX) g) g) rows cols := by
  intro l
  induction l with
  | nil => intro g hd; exact hd
  | cons bY rest ih =>
    intro g hd
    rw [List.foldl_cons]
    exact ih _ (GridDims_foldInner _ _ _ _ _ _ _ _ _ hd)

theorem gridAt_foldOuter_notmem (wt : List Nat) (rows cols width : Nat)
    (md : List Nat) (blocks : List (List Nat)) (gx gy : Nat) :
    ∀ (l : List Nat), gy / 2 ∉ l → ∀ (g : List (List Bool)),
      gridAt (l.foldl (fun g blockY => (List.range width).foldl (fun g bX =>
        processBlock wt rows cols width md blocks g blockY bX) g) g) gx gy =
      gridAt g gx gy := by
  intro l
  induction l with
  | nil => intro _ g; rfl
  | cons bY rest ih =>
    intro hnm g
    rw [List.foldl_cons, ih (fun hc => hnm (List.mem_cons_of_mem _ hc)),
      gridAt_foldInner_skip _ _ _ _ _ _ _ _ _
        (fun hc => hnm (by rw [hc]; exact List.mem_cons_self _ _))]

theorem gridAt_foldOuter_owner (wt : List Nat) (rows cols width : Nat)
    (md : List Nat) (blocks : List (List Nat)) (blockY blockX qr qc : Nat)
    (hqr : qr < 2) (hqc : qc < 2)
    (hy : blockY * 2 + qr < rows) (hx : blockX * 2 + qc < cols)
    (hbx : blockX < width)
    (hmd : blockY * width + blockX < md.length) :
    ∀ (l : List Nat), l.Nodup → blockY ∈ l → ∀ (g : List (List Bool)),
      GridDims g rows cols →
      gridAt (l.foldl (fun g blockY => (List.range width).foldl (fun g bX =>
        processBlock wt rows cols width md blocks g blockY bX) g) g)
        (blockX * 2 + qc) (blockY * 2 + qr) =
      (if md.getD (blockY * width + blockX) 0 < blocks.length ∧
          16 ≤ (blocks.getD (md.getD (blockY * width + blockX) 0) []).length then
        decide ((blocks.getD (md.getD (blockY * width + blockX) 0) []).getD
          ((qr * 2 + 1) * 4 + (qc * 2 + 0)) 0 ∈ wt)
      else gridAt g (blockX * 2 + qc) (blockY * 2 + qr)) := by
  intro l
  induction l with
  | nil => intro _ hmem; exact absurd hmem (List.not_mem_nil _)
  | cons bY rest ih =>
    intro hnd hmem g hd
    rw [List.foldl_cons]
    by_cases hby : bY = blockY
    · subst hby
      rw [gridAt_foldOuter_notmem _ _ _ _ _ _ _ _ rest
          (by
            have : (bY * 2 + qr) / 2 = bY := by omega
            rw [this]
            exact (List.nodup_cons.mp hnd).1) _,
        gridAt_foldInner_owner _ _ _ _ _ _ _ _ _ _ hqr hqc hy hx hmd
          (List.range width) (List.nodup_range width) (List.mem_range.mpr hbx) _ hd]
    · have hmem' : blockY ∈ rest := by
        rcases List.mem_cons.mp hmem with h | h
        · exact absurd h.symm hby
        · exact h
      rw [ih (List.nodup_cons.mp hnd).2 hmem' _
          (GridDims_foldInner _ _ _ _ _ _ _ _ _ hd),
        gridAt_foldInner_skip _ _ _ _ _ _ _ _ _ (by omega)]

theorem gridAt_replicate_false (rows cols gx gy : Nat) :
    gridAt (List.replicate rows (List.replicate cols false)) gx gy = false := by
  unfold gridAt
  by_cases h : gy < rows
  · rw [List.getD_eq_getElem (List.replicate rows (List.replicate cols false)) []
        (by simpa using h), List.getElem_replicate]
    by_cases h2 : gx < cols
    · rw [List.getD_eq_getElem _ _ (by simpa using h2), List.getElem_replicate]
    · rw [List.getD_eq_default _ _ (by simpa using Nat.le_of_not_lt h2)]
  · rw [List.getD_eq_default (List.replicate rows (List.replicate cols false)) []
        (by simpa using Nat.le_of_not_lt h)]
    rfl

theorem GridDims_build (width height : Nat) (md : List Nat)
    (blocks : List (List Nat)) (wt : List Nat) :
    GridDims (build_quadrant_walkability width height md blocks wt)
      (height * 2) (width * 2) := by
  dsimp only [build_quadrant_walkability]
  apply GridDims_foldOuter
  refine ⟨by simp, ?_⟩
  intro row hrow
  rw [List.eq_of_mem_replicate hrow]
  simp

theorem gridAt_build (width height : Nat) (md : List Nat)
    (blocks : List (List Nat)) (wt : List Nat) (blockY blockX qr qc : Nat)
    (hqr : qr < 2) (hqc : qc < 2) (hby : blockY < height) (hbx : blockX < width)
    (hmd : md.length = width * height) :
    gridAt (build_quadrant_walkability width height md blocks wt)
      (blockX * 2 + qc) (blockY * 2 + qr) =
      (if md.getD (blockY * width + blockX) 0 < blocks.length ∧
          16 ≤ (blocks.getD (md.getD (blockY * width + blockX) 0) []).length then
        decide ((blocks.getD (md.getD (blockY * width + blockX) 0) []).getD
          ((qr * 2 + 1) * 4 + (qc * 2 + 0)) 0 ∈ wt)
      else false) := by
  have hmd' : blockY * width + blockX < md.length := by
    rw [hmd]
    calc blockY * width + blockX < (blockY + 1) * width := by
          rw [Nat.add_mul, Nat.one_mul]; omega
      _ ≤ height * width := Nat.mul_le_mul_right width (by omega)
      _ = width * height := Nat.mul_comm _ _
  dsimp only [build_quadrant_walkability]
  rw [gridAt_foldOuter_owner _ _ _ _ _ _ _ _ _ _ hqr hqc (by omega) (by omega) hbx hmd'
      (List.range height) (List.nodup_range height) (List.mem_range.mpr hby) _
      (by
        refine ⟨by simp, ?_⟩
        intro row hrow
        rw [List.eq_of_mem_replicate hrow]
        simp),
    gridAt_replicate_false]

/-- Rectangularity of any grid with uniform dimensions. -/
theorem RectGrid_of_dims (g : List (List Bool)) (rows cols : Nat)
    (hd : GridDims g rows cols) : RectGrid g := by
  intro row hrow
  rw [hd.2 row hrow]
  cases g with
  | nil => cases hrow
  | cons r rest =>
    have := hd.2 r (List.mem_cons_self _ _)
    simp [gridCols, this]

/-! ## C2: build_quadrant_walkability -/

/-- Counterexample to claim C2 as stated: a referenced block of only 15
    subtiles.  Its representative subtile index 4 for quadrant (0,0) exists
    and lies in the collision set, and the block index 0 is within range of
    the block list, yet the cell stays False: the code skips any block
    shorter than 16 bytes before sampling. -/
theorem build_quadrant_walkability_counterexample :
    (0 : Nat) < ([List.replicate 15 0] : List (List Nat)).length ∧
    (List.replicate 15 0).getD ((0 * 2 + 1) * 4 + (0 * 2 + 0)) 0 ∈ ([0] : List Nat) ∧
    gridAt (build_quadrant_walkability 1 1 [0] [List.replicate 15 0] [0])
      (0 * 2 + 0) (0 * 2 + 0) = false := by decide

/-- Claim C2 as amended: the output always has height*2 rows of width*2
    columns, and for block cell (bx,by) and quadrant (qr,qc), the cell
    grid[by*2+qr][bx*2+qc] is True iff the block index is in range of the
    block list, the block has at least 16 subtiles (shorter blocks are
    skipped, leaving False), and the representative subtile at index
    (qr*2+1)*4 + (qc*2+0) is a member of the collision set; an out-of-range
    block index leaves all four quadrants False. -/
theorem build_quadrant_walkability_spec (width height : Nat) (md : List Nat)
    (blocks : List (List Nat)) (wt : List Nat)
    (hmd : md.length = width * height) :
    (build_quadrant_walkability width height md blocks wt).length = height * 2 ∧
    (∀ row ∈ build_quadrant_walkability width height md blocks wt,
      row.length = width * 2) ∧
    (∀ blockX blockY qr qc, blockX < width → blockY < height → qr < 2 → qc < 2 →
      (gridAt (build_quadrant_walkability width height md blocks wt)
          (blockX * 2 + qc) (blockY * 2 + qr) = true ↔
        (md.getD (blockY * width + blockX) 0 < blocks.length ∧
         16 ≤ (blocks.getD (md.getD (blockY * width + blockX) 0) []).length ∧
         (blocks.getD (md.getD (blockY * width + blockX) 0) []).getD
           ((qr * 2 + 1) * 4 + (qc * 2 + 0)) 0 ∈ wt))) := by
  refine ⟨(GridDims_build width height md blocks wt).1,
    (GridDims_build width height md blocks wt).2, ?_⟩
  intro blockX blockY qr qc hbx hby hqr hqc
  rw [gridAt_build width height md blocks wt blockY blockX qr qc hqr hqc hby hbx hmd]
  by_cases hc : md.getD (blockY * width + blockX) 0 < blocks.length ∧
      16 ≤ (blocks.getD (md.getD (blockY * width + blockX) 0) []).length
  · rw [if_pos hc]
    simp only [decide_eq_true_eq]
    exact ⟨fun hm => ⟨hc.1, hc.2, hm⟩, fun hm => hm.2.2⟩
  · rw [if_neg hc]
    constructor
    · intro hcon
      exact (Bool.false_ne_true hcon).elim
    · intro hcon
      exact absurd ⟨hcon.1, hcon.2.1⟩ hc

/-- Witness for the amended C2 on a concrete map. -/
theorem build_quadrant_walkability_spec_witness :
    (build_quadrant_walkability 1 1 [0] [List.replicate 16 0] [0]).length = 1 * 2 ∧
    (gridAt (build_quadrant_walkability 1 1 [0] [List.replicate 16 0] [0])
        (0 * 2 + 0) (0 * 2 + 0) = true ↔
      (([0] : List Nat).getD (0 * 1 + 0) 0 < ([List.replicate 16 0] : List (List Nat)).length ∧
       16 ≤ (([List.replicate 16 0] : List (List Nat)).getD (([0] : List Nat).getD (0 * 1 + 0) 0) []).length ∧
       (([List.replicate 16 0] : List (List Nat)).getD (([0] : List Nat).getD (0 * 1 + 0) 0) []).getD
         ((0 * 2 + 1) * 4 + (0 * 2 + 0)) 0 ∈ ([0] : List Nat))) := by
  have h := build_quadrant_walkability_spec 1 1 [0] [List.replicate 16 0] [0] (by decide)
  exact ⟨h.1, h.2.2 0 0 0 0 (by decide) (by decide) (by decide) (by decide)⟩

/-! ## Special classifier: membership characterization -/

/-- Condition under which the quadrant step adds cell x. -/
def quadCond (grid : List (List Bool)) (grid_h grid_w : Nat) (bd : List Nat)
    (blockY blockX : Nat) (q : Nat × Nat) (x : Nat × Nat) : Prop :=
  (blockY * 2 + q.1 < grid_h ∧ blockX * 2 + q.2 < grid_w) ∧
  (allSpecial bd q.1 q.2 = true ∧
   gridAt grid (blockX * 2 + q.2) (blockY * 2 + q.1) = true) ∧
  x = (blockX * 2 + q.2, blockY * 2 + q.1)

/-- Condition under which the block iteration (blockY, blockX) adds cell x. -/
def blockCond (grid : List (List Bool)) (grid_h grid_w : Nat)
    (map_data : List Nat) (blocks : List (List Nat)) (width : Nat)
    (blockY blockX : Nat) (x : Nat × Nat) : Prop :=
  blockY * width + blockX < map_data.length ∧
  map_data.getD (blockY * width + blockX) 0 < blocks.length ∧
  16 ≤ (blocks.getD (map_data.getD (blockY * width + blockX) 0) []).length ∧
  ∃ q ∈ quadPairs,
    quadCond grid grid_h grid_w
      (blocks.getD (map_data.getD (blockY * width + blockX) 0) []) blockY blockX q x

theorem mem_specialStep (grid : List (List Bool)) (grid_h grid_w : Nat)
    (bd : List Nat) (blockY blockX : Nat) (acc : List (Nat × Nat))
    (q x : Nat × Nat) :
    x ∈ specialStep grid grid_h grid_w bd blockY blockX acc q ↔
      x ∈ acc ∨ quadCond grid grid_h grid_w bd blockY blockX q x := by
  dsimp only [specialStep]
  split
  · rename_i h1
    split
    · rename_i h2
      simp only [List.mem_append, List.mem_singleton, quadCond]
      constructor
      · rintro (h | h)
        · exact Or.inl h
        · exact Or.inr ⟨h1, h2, h⟩
      · rintro (h | h)
        · exact Or.inl h
        · exact Or.inr h.2.2
    · rename_i h2
      simp only [quadCond]
      constructor
      · exact Or.inl
      · rintro (h | h)
        · exact h
        · exact absurd h.2.1 h2
  · rename_i h1
    simp only [quadCond]
    constructor
    · exact Or.inl
    · rintro (h | h)
      · exact h
      · exact absurd h.1 h1

theorem mem_quadFold (grid : List (List Bool)) (grid_h grid_w : Nat)
    (bd : List Nat) (blockY blockX : Nat) :
    ∀ (l : List (Nat × Nat)) (acc : List (Nat × Nat)) (x : Nat × Nat),
      x ∈ l.foldl (specialStep grid grid_h grid_w bd blockY blockX) acc ↔
        x ∈ acc ∨ ∃ q ∈ l, quadCond grid grid_h grid_w bd blockY blockX q x := by
  intro l
  induction l with
  | nil => intro acc x; simp
  | cons q rest ih =>
    intro acc x
    rw [List.foldl_cons, ih, mem_specialStep]
    simp only [List.exists_mem_cons_iff]
    tauto

theorem mem_specialBlock (grid : List (List Bool)) (grid_h grid_w : Nat)
    (map_data : List Nat) (blocks : List (List Nat)) (width : Nat)
    (acc : List (Nat × Nat)) (blockY blockX : Nat) (x : Nat × Nat) :
    x ∈ specialBlock grid grid_h grid_w map_data blocks width acc blockY blockX ↔
      x ∈ acc ∨ blockCond grid grid_h grid_w map_data blocks width blockY blockX x := by
  dsimp only [specialBlock]
  split
  · rename_i h1
    simp only [blockCond]
    constructor
    · exact Or.inl
    · rintro (h | h)
      · exact h
      · omega
  · rename_i h1
    split
    · rename_i h2
      simp only [blockCond]
      constructor
      · exact Or.inl
      · rintro (h | h)
        · exact h
        · omega
    · rename_i h2
      split
      · rename_i h3
        simp only [blockCond]
        constructor
        · exact Or.inl
        · rintro (h | h)
          · exact h
          · omega
      · rename_i h3
        rw [mem_quadFold]
        simp only [blockCond]
        constructor
        · rintro (h | h)
          · exact Or.inl h
          · exact Or.inr ⟨by omega, by omega, by omega, h⟩
        · rintro (h | h)
          · exact Or.inl h
          · exact Or.inr h.2.2.2

theorem mem_innerSpecialFold (grid : List (List Bool)) (grid_h grid_w : Nat)
    (map_data : List Nat) (blocks : List (List Nat)) (width : Nat) (blockY : Nat) :
    ∀ (l : List Nat) (acc : List (Nat × Nat)) (x : Nat × Nat),
      x ∈ l.foldl (fun acc blockX =>
          specialBlock grid grid_h grid_w map_data blocks width acc blockY blockX) acc ↔
        x ∈ acc ∨ ∃ blockX ∈ l,
          blockCond grid grid_h grid_w map_data blocks width blockY blockX x := by
  intro l
  induction l with
  | nil => intro acc x; simp
  | cons bX rest ih =>
    intro acc x
    rw [List.foldl_cons, ih, mem_specialBlock]
    simp only [List.exists_mem_cons_iff]
    tauto

theorem mem_walkable_special_quadrants (width height : Nat) (map_data : List Nat)
    (blocks : List (List Nat)) (grid : List (List Bool)) (x : Nat × Nat) :
    x ∈ walkable_special_quadrants width height map_data blocks grid ↔
      ∃ blockY ∈ List.range height, ∃ blockX ∈ List.range width,
        blockCond grid grid.length (grid.headD []).length
          map_data blocks width blockY blockX x := by
  dsimp only [walkable_special_quadrants]
  have main : ∀ (l : List Nat) (acc : List (Nat × Nat)),
      x ∈ l.foldl (fun acc blockY => (List.range width).foldl
        (fun acc blockX => specialBlock grid grid.length (grid.headD []).length
          map_data blocks width acc blockY blockX) acc) acc ↔
      x ∈ acc ∨ ∃ blockY ∈ l, ∃ blockX ∈ List.range width,
        blockCond grid grid.length (grid.headD []).length
          map_data blocks width blockY blockX x := by
    intro l
    induction l with
    | nil => intro acc; simp
    | cons bY rest ih =>
      intro acc
      rw [List.foldl_cons, ih, mem_innerSpecialFold]
      simp only [List.exists_mem_cons_iff]
      rw [or_assoc]
  rw [main]
  simp

theorem blockIdx_lt (width height blockY blockX : Nat)
    (hbY : blockY < height) (hbX : blockX < width) :
    blockY * width + blockX < width * height :=
  calc blockY * width + blockX < (blockY + 1) * width := by
        rw [Nat.add_mul, Nat.one_mul]; omega
    _ ≤ height * width := Nat.mul_le_mul_right width (by omega)
    _ = width * height := Nat.mul_comm _ _

theorem headD_length_of_dims (g : List (List Bool)) (rows cols : Nat)
    (hd : GridDims g rows cols) (hr : 0 < rows) : (g.headD []).length = cols := by
  cases g with
  | nil => simp [GridDims] at hd; omega
  | cons r rest => exact hd.2 r (List.mem_cons_self _ _)

theorem mem_quadPairs (q : Nat × Nat) : q ∈ quadPairs ↔ q.1 < 2 ∧ q.2 < 2 := by
  obtain ⟨a, b⟩ := q
  constructor
  · intro h
    simp only [quadPairs, List.mem_cons, List.mem_singleton, List.not_mem_nil,
      or_false] at h
    rcases h with h | h | h | h
    all_goals (rw [Prod.mk.injEq] at h; omega)
  · rintro ⟨ha, hb⟩
    interval_cases a <;> interval_cases b <;> decide

theorem allSpecial_iff (bd : List Nat) (a b : Nat) :
    allSpecial bd a b = true ↔
      ∀ i ∈ quadIndices a b, i < bd.length ∧ bd.getD i 0 ∈ SPECIAL_FEATURE_TILE_IDS := by
  simp [allSpecial, List.all_eq_true]

/-! ## C4: special quadrants -/

/-- Claim C4: over the grid built from the same map data, the computed set
    of walkable special quadrants contains (gx,gy) iff the quadrant is on
    the map, all 4 subtile ids of its 2x2 region within the owning block
    are present and members of SPECIAL_FEATURE_TILE_IDS, and the cell is
    walkable; in particular the set is a subset of the walkable cells. -/
theorem walkable_special_quadrants_spec :
    ∀ (width height : Nat) (md : List Nat) (blocks : List (List Nat))
      (wt : List Nat) (gx gy : Nat), md.length = width * height →
      ((gx, gy) ∈ walkable_special_quadrants width height md blocks
          (build_quadrant_walkability width height md blocks wt) ↔
        (gx < width * 2 ∧ gy < height * 2 ∧
         (∀ i ∈ quadIndices (gy % 2) (gx % 2),
            i < (blocks.getD (md.getD ((gy / 2) * width + gx / 2) 0) []).length ∧
            (blocks.getD (md.getD ((gy / 2) * width + gx / 2) 0) []).getD i 0 ∈
              SPECIAL_FEATURE_TILE_IDS) ∧
         gridAt (build_quadrant_walkability width height md blocks wt) gx gy = true)) ∧
      (∀ x ∈ walkable_special_quadrants width height md blocks
          (build_quadrant_walkability width height md blocks wt),
        gridAt (build_quadrant_walkability width height md blocks wt) x.1 x.2 = true) := by
  intro width height md blocks wt gx gy hmd
  constructor
  · rw [mem_walkable_special_quadrants]
    constructor
    · rintro ⟨bY, hbY, bX, hbX, hmdi, hbidx, h16, q, hq, hbounds, ⟨hall, hwalk⟩, hx⟩
      rw [List.mem_range] at hbY hbX
      obtain ⟨hq1, hq2⟩ := (mem_quadPairs q).mp hq
      rw [Prod.mk.injEq] at hx
      obtain ⟨hx1, hx2⟩ := hx
      have egy : gy / 2 = bY := by omega
      have egx : gx / 2 = bX := by omega
      have egy2 : gy % 2 = q.1 := by omega
      have egx2 : gx % 2 = q.2 := by omega
      refine ⟨by omega, by omega, ?_, ?_⟩
      · rw [egy, egx, egy2, egx2]
        exact (allSpecial_iff _ _ _).mp hall
      · rw [hx1, hx2]
        exact hwalk
    · rintro ⟨hgx, hgy, hall, hwalk⟩
      have hh : 0 < height := by omega
      have hw : 0 < width := by omega
      have hbidx : md.getD ((gy / 2) * width + gx / 2) 0 < blocks.length := by
        by_contra hcon
        have hbd : blocks.getD (md.getD ((gy / 2) * width + gx / 2) 0) [] = [] :=
          List.getD_eq_default _ _ (by omega)
        have := (hall _ (List.mem_cons_self _ _)).1
        rw [hbd] at this
        simp at this
      have hcell := gridAt_build width height md blocks wt (gy / 2) (gx / 2)
        (gy % 2) (gx % 2) (by omega) (by omega) (by omega) (by omega) hmd
      have ecell₁ : gx / 2 * 2 + gx % 2 = gx := by omega
      have ecell₂ : gy / 2 * 2 + gy % 2 = gy := by omega
      rw [ecell₁, ecell₂] at hcell
      rw [hcell] at hwalk
      have h16 : 16 ≤ (blocks.getD (md.getD ((gy / 2) * width + gx / 2) 0) []).length := by
        by_contra hcon
        rw [if_neg (fun hc => hcon hc.2)] at hwalk
        exact Bool.false_ne_true hwalk
      refine ⟨gy / 2, List.mem_range.mpr (by omega), gx / 2, List.mem_range.mpr (by omega),
        ?_, hbidx, h16, (gy % 2, gx % 2), (mem_quadPairs _).mpr ⟨by omega, by omega⟩,
        ⟨?_, ?_⟩, ⟨?_, ?_⟩, ?_⟩
      · rw [hmd]
        exact blockIdx_lt _ _ _ _ (by omega) (by omega)
      · rw [(GridDims_build width height md blocks wt).1]
        omega
      · rw [headD_length_of_dims _ _ _ (GridDims_build width height md blocks wt) (by omega)]
        omega
      · rw [allSpecial_iff]
        exact hall
      · rw [ecell₁, ecell₂, hcell]
        exact hwalk
      · rw [Prod.mk.injEq]
        omega
  · intro x hx
    rw [mem_walkable_special_quadrants] at hx
    obtain ⟨bY, _, bX, _, _, _, _, q, _, _, ⟨_, hwalk⟩, hx⟩ := hx
    rw [hx]
    exact hwalk

/-- Witness for C4 on a concrete one-block map with a door quadrant. -/
theorem walkable_special_quadrants_spec_witness :
    ((0, 0) ∈ walkable_special_quadrants 1 1 [0]
        [[0x04, 0x05, 9, 9, 0x0C, 0x0D, 9, 9, 9, 9, 9, 9, 9, 9, 9, 9]]
        (build_quadrant_walkability 1 1 [0]
          [[0x04, 0x05, 9, 9, 0x0C, 0x0D, 9, 9, 9, 9, 9, 9, 9, 9, 9, 9]] [0x0C]) ↔
      (0 < 1 * 2 ∧ 0 < 1 * 2 ∧
       (∀ i ∈ quadIndices (0 % 2) (0 % 2),
          i < (([[0x04, 0x05, 9, 9, 0x0C, 0x0D, 9, 9, 9, 9, 9, 9, 9, 9, 9, 9]] :
              List (List Nat)).getD (([0] : List Nat).getD ((0 / 2) * 1 + 0 / 2) 0) []).length ∧
          (([[0x04, 0x05, 9, 9, 0x0C, 0x0D, 9, 9, 9, 9, 9, 9, 9, 9, 9, 9]] :
              List (List Nat)).getD (([0] : List Nat).getD ((0 / 2) * 1 + 0 / 2) 0) []).getD i 0 ∈
            SPECIAL_FEATURE_TILE_IDS) ∧
       gridAt (build_quadrant_walkability 1 1 [0]
          [[0x04, 0x05, 9, 9, 0x0C, 0x0D, 9, 9, 9, 9, 9, 9, 9, 9, 9, 9]] [0x0C]) 0 0 = true)) :=
  (walkable_special_quadrants_spec 1 1 [0]
    [[0x04, 0x05, 9, 9, 0x0C, 0x0D, 9, 9, 9, 9, 9, 9, 9, 9, 9, 9]] [0x0C] 0 0 (by decide)).1

/-! ## Pathfinder: basic facts about moves and distances -/

theorem dirs_chars : ∀ d ∈ dirs, d.2 ∈ (['R', 'L', 'D', 'U'] : List Char) := by decide

theorem applyAct_of_dir : ∀ d ∈ dirs, ∀ c : Cell, applyAct c d.2 = cellStep c d.1 := by
  intro d hd c
  simp only [dirs, List.mem_cons, List.mem_singleton, List.not_mem_nil, or_false] at hd
  rcases hd with h | h | h | h <;> subst h <;>
    simp [applyAct, cellStep] <;> omega

theorem valid_singleton (g : List (List Bool)) (s : Cell) : ValidSeq g s s [s] :=
  ⟨rfl, rfl, List.chain'_singleton s⟩

theorem valid_ne_nil (g : List (List Bool)) (s e : Cell) (l : List Cell)
    (h : ValidSeq g s e l) : l ≠ [] := by
  intro hc
  subst hc
  cases h.1

theorem valid_length_pos (g : List (List Bool)) (s e : Cell) (l : List Cell)
    (h : ValidSeq g s e l) : 1 ≤ l.length := by
  cases l with
  | nil => cases h.1
  | cons a rest => simp

theorem valid_append (g : List (List Bool)) (s c n : Cell) (l : List Cell)
    (h : ValidSeq g s c l) (hstep : StepOK g c n) : ValidSeq g s n (l ++ [n]) := by
  obtain ⟨h1, h2, h3⟩ := h
  refine ⟨?_, ?_, ?_⟩
  · cases l with
    | nil => cases h1
    | cons a rest => exact h1
  · rw [List.getLast?_append]
    rfl
  · rw [List.chain'_append]
    refine ⟨h3, List.chain'_singleton n, ?_⟩
    intro x hx y hy
    simp only [List.head?_cons, Option.mem_def, Option.some.injEq] at hy
    rw [h2] at hx
    simp only [Option.mem_def, Option.some.injEq] at hx
    subst hx
    subst hy
    exact hstep

theorem valid_split_last (g : List (List Bool)) (s e : Cell) (l : List Cell)
    (h : ValidSeq g s e l) (hlen : 2 ≤ l.length) :
    ∃ l' c, l = l' ++ [e] ∧ ValidSeq g s c l' ∧ StepOK g c e ∧
      l'.length + 1 = l.length := by
  obtain ⟨h1, h2, h3⟩ := h
  have hne : l ≠ [] := by intro hc; subst hc; cases h1
  have hsplit : l.dropLast ++ [l.getLast hne] = l := List.dropLast_append_getLast hne
  have hlaste : l.getLast hne = e := by
    have := List.getLast?_eq_getLast l hne
    rw [h2] at this
    exact (Option.some.injEq _ _).mp this.symm
  have hdne : l.dropLast ≠ [] := by
    intro hc
    have := congrArg List.length hsplit
    rw [hc] at this
    simp at this
    omega
  refine ⟨l.dropLast, l.dropLast.getLast hdne, ?_, ⟨?_, ?_, ?_⟩, ?_, ?_⟩
  · rw [← hlaste, hsplit]
  · cases hl : l.dropLast with
    | nil => exact absurd hl hdne
    | cons a rest =>
      rw [← hsplit, hl] at h1
      simpa using h1
  · exact List.getLast?_eq_getLast _ hdne
  · rw [← hsplit] at h3
    exact (List.chain'_append.mp h3).1
  · rw [← hsplit] at h3
    have hrel := (List.chain'_append.mp h3).2.2
    rw [hlaste] at hrel
    exact hrel _ (List.getLast?_eq_getLast _ hdne) e rfl
  · have := congrArg List.length hsplit
    simpa using this

theorem isDist_unique (g : List (List Bool)) (s e : Cell) (n m : Nat)
    (hn : IsDist g s e n) (hm : IsDist g s e m) : n = m := by
  obtain ⟨⟨l1, hl1, hlen1⟩, hmin1⟩ := hn
  obtain ⟨⟨l2, hl2, hlen2⟩, hmin2⟩ := hm
  have h1 := hmin1 l2 hl2
  have h2 := hmin2 l1 hl1
  omega

theorem reach_isDist (g : List (List Bool)) (s e : Cell)
    (h : ∃ l, ValidSeq g s e l) : ∃ n, IsDist g s e n := by
  obtain ⟨l, hl⟩ := h
  have hne : 1 ≤ l.length := valid_length_pos g s e l hl
  set S : Set Nat := {k | ∃ l', ValidSeq g s e l' ∧ l'.length = k + 1} with hS
  have hSne : S.Nonempty := ⟨l.length - 1, l, hl, by omega⟩
  refine ⟨sInf S, ?_, ?_⟩
  · exact Nat.sInf_mem hSne
  · intro l' hl'
    have hmem : l'.length - 1 ∈ S := ⟨l', hl', by
      have := valid_length_pos g s e l' hl'
      omega⟩
    have := Nat.sInf_le hmem
    have := valid_length_pos g s e l' hl'
    omega

theorem isDist_self (g : List (List Bool)) (s : Cell) : IsDist g s s 0 :=
  ⟨⟨[s], valid_singleton g s, rfl⟩, fun l hl => by
    have := valid_length_pos g s s l hl; omega⟩

theorem isDist_zero_eq (g : List (List Bool)) (s e : Cell)
    (h : IsDist g s e 0) : e = s := by
  obtain ⟨⟨l, hl, hlen⟩, _⟩ := h
  cases l with
  | nil => cases hl.1
  | cons a rest =>
    cases rest with
    | nil =>
      have h1 := hl.1
      have h2 := hl.2.1
      simp at h1 h2
      rw [← h1, ← h2]
    | cons b rest2 => simp at hlen

theorem isDist_le_succ (g : List (List Bool)) (s c m : Cell) (n : Nat)
    (hc : IsDist g s c n) (hstep : StepOK g c m) :
    ∃ k, k ≤ n + 1 ∧ IsDist g s m k := by
  obtain ⟨⟨l, hl, hlen⟩, _⟩ := hc
  have hext : ValidSeq g s m (l ++ [m]) := valid_append g s c m l hl hstep
  obtain ⟨k, hk⟩ := reach_isDist g s m ⟨l ++ [m], hext⟩
  refine ⟨k, ?_, hk⟩
  have := hk.2 (l ++ [m]) hext
  simp only [List.length_append, List.length_singleton] at this
  omega

theorem isDist_pred (g : List (List Bool)) (s e : Cell) (n : Nat)
    (h : IsDist g s e (n + 1)) : ∃ c, StepOK g c e ∧ IsDist g s c n := by
  obtain ⟨⟨l, hl, hlen⟩, hmin⟩ := h
  obtain ⟨l', c, heq, hl', hstep, hlen'⟩ := valid_split_last g s e l hl (by omega)
  obtain ⟨k, hk⟩ := reach_isDist g s c ⟨l', hl'⟩
  have hkle : k ≤ n := by
    have := hk.2 l' hl'
    omega
  have hnk : n ≤ k := by
    obtain ⟨⟨lc, hlc, hlenc⟩, _⟩ := hk
    have hext : ValidSeq g s e (lc ++ [e]) := valid_append g s c e lc hlc hstep
    have := hmin (lc ++ [e]) hext
    simp only [List.length_append, List.length_singleton] at this
    omega
  have : k = n := by omega
  subst this
  exact ⟨c, hstep, hk⟩

/-! ## Pathfinder: predecessor map lemmas -/

theorem plookup_isSome_iff (p : PrevMap) (c : Cell) :
    (plookup p c).isSome = true ↔ c ∈ p.map Prod.fst := by
  induction p with
  | nil => simp [plookup]
  | cons kv rest ih =>
    obtain ⟨k, v⟩ := kv
    simp only [plookup, List.map_cons, List.mem_cons]
    by_cases hk : k = c
    · subst hk
      simp
    · rw [if_neg hk, ih]
      constructor
      · exact Or.inr
      · rintro (h | h)
        · exact absurd h.symm hk
        · exact h

theorem plookup_none_iff (p : PrevMap) (c : Cell) :
    plookup p c = none ↔ c ∉ p.map Prod.fst := by
  rw [← plookup_isSome_iff]
  cases plookup p c <;> simp

theorem plookup_cons_ne (p : PrevMap) (k c : Cell) (v : Option (Cell × Char))
    (h : k ≠ c) : plookup ((k, v) :: p) c = plookup p c := by
  simp [plookup, h]

theorem plookup_cons_self (p : PrevMap) (k : Cell) (v : Option (Cell × Char)) :
    plookup ((k, v) :: p) k = some v := by
  simp [plookup]

/-- Lookups already present survive a fresh insertion. -/
theorem plookup_cons_of_disc (p : PrevMap) (n c : Cell)
    (w : Option (Cell × Char)) (hfresh : plookup p n = none)
    (v : Option (Cell × Char)) (h : plookup p c = some v) :
    plookup ((n, w) :: p) c = some v := by
  have hne : n ≠ c := by
    intro hc
    subst hc
    rw [hfresh] at h
    cases h
  rw [plookup_cons_ne _ _ _ _ hne, h]

/-! ## Pathfinder: the BFS loop invariant -/

structure BfsInv (g : List (List Bool)) (s e : Cell) (q : List Cell) (p : PrevMap) : Prop where
  hstart : plookup p s = some none
  hnone : ∀ c, plookup p c = some none → c = s
  hstep : ∀ c pc a, plookup p c = some (some (pc, a)) →
    (∃ d ∈ dirs, a = d.2 ∧ c = cellStep pc d.1) ∧ InBounds g c ∧ cellWalk g c = true ∧
    (plookup p pc).isSome = true
  hpdist : ∀ c pc a, plookup p c = some (some (pc, a)) →
    ∃ m, IsDist g s pc m ∧ IsDist g s c (m + 1)
  hdist : ∀ c, (plookup p c).isSome = true → ∃ n, IsDist g s c n
  hnodup : (p.map Prod.fst).Nodup
  hinb : ∀ c, (plookup p c).isSome = true → InBounds g c
  hqsub : ∀ c ∈ q, (plookup p c).isSome = true
  hqnodup : q.Nodup
  htarget : (plookup p e).isSome = true → e ∈ q
  hclosed : ∀ c, (plookup p c).isSome = true → c ∉ q →
    ∀ n, StepOK g c n → (plookup p n).isSome = true
  hlevel : q = [] ∨ ∃ D A B, q = A ++ B ∧ A ≠ [] ∧
    (∀ c ∈ A, IsDist g s c D) ∧ (∀ c ∈ B, IsDist g s c (D + 1)) ∧
    (∀ v m, IsDist g s v m → m < D → (plookup p v).isSome = true ∧ v ∉ q) ∧
    (∀ v, IsDist g s v D → (plookup p v).isSome = true)

/-- The invariant holds at loop entry. -/
theorem bfsInv_init (g : List (List Bool)) (s e : Cell) (hin : InBounds g s) :
    BfsInv g s e [s] [(s, none)] := by
  refine ⟨plookup_cons_self _ _ _, ?_, ?_, ?_, ?_, by simp, ?_, ?_, by simp, ?_, ?_, ?_⟩
  · intro c h
    by_cases hc : s = c
    · exact hc.symm
    · rw [plookup_cons_ne _ _ _ _ hc] at h
      cases h
  · intro c pc a h
    by_cases hc : s = c
    · subst hc
      rw [plookup_cons_self] at h
      cases h
    · rw [plookup_cons_ne _ _ _ _ hc] at h
      cases h
  · intro c pc a h
    by_cases hc : s = c
    · subst hc
      rw [plookup_cons_self] at h
      cases h
    · rw [plookup_cons_ne _ _ _ _ hc] at h
      cases h
  · intro c h
    by_cases hc : s = c
    · subst hc
      exact ⟨0, isDist_self g s⟩
    · rw [plookup_cons_ne _ _ _ _ hc] at h
      simp [plookup] at h
  · intro c h
    by_cases hc : s = c
    · subst hc
      exact hin
    · rw [plookup_cons_ne _ _ _ _ hc] at h
      simp [plookup] at h
  · intro c hc
    simp only [List.mem_singleton] at hc
    subst hc
    rw [plookup_cons_self]
    rfl
  · intro hdisc
    by_cases hc : s = e
    · subst hc
      simp
    · rw [plookup_cons_ne _ _ _ _ hc] at hdisc
      simp [plookup] at hdisc
  · intro c hdisc hnq
    by_cases hc : s = c
    · subst hc
      exact absurd (List.mem_singleton.mpr rfl) hnq
    · rw [plookup_cons_ne _ _ _ _ hc] at hdisc
      simp [plookup] at hdisc
  · refine Or.inr ⟨0, [s], [], rfl, by simp, ?_, by simp, ?_, ?_⟩
    · intro c hc
      simp only [List.mem_singleton] at hc
      rw [hc]
      exact isDist_self g s
    · intro v m _ hm
      omega
    · intro v hv
      have := isDist_zero_eq g s v hv
      subst this
      rw [plookup_cons_self]
      rfl

/-- Invariant during the neighbor expansion of a popped cell c at distance D. -/
structure MidInv (g : List (List Bool)) (s e c : Cell) (D : Nat)
    (q : List Cell) (p : PrevMap) : Prop where
  hstart : plookup p s = some none
  hnone : ∀ x, plookup p x = some none → x = s
  hstep : ∀ x pc a, plookup p x = some (some (pc, a)) →
    (∃ d ∈ dirs, a = d.2 ∧ x = cellStep pc d.1) ∧ InBounds g x ∧ cellWalk g x = true ∧
    (plookup p pc).isSome = true
  hpdist : ∀ x pc a, plookup p x = some (some (pc, a)) →
    ∃ m, IsDist g s pc m ∧ IsDist g s x (m + 1)
  hdist : ∀ x, (plookup p x).isSome = true → ∃ n, IsDist g s x n
  hnodup : (p.map Prod.fst).Nodup
  hinb : ∀ x, (plookup p x).isSome = true → InBounds g x
  hqsub : ∀ x ∈ q, (plookup p x).isSome = true
  hqnodup : q.Nodup
  hcdisc : (plookup p c).isSome = true
  hcnotq : c ∉ q
  hcdist : IsDist g s c D
  hcne : c ≠ e
  htarget : (plookup p e).isSome = true → e ∈ q
  hclosedx : ∀ x, (plookup p x).isSome = true → x ∉ q → x ≠ c →
    ∀ n, StepOK g x n → (plookup p n).isSome = true
  hlevelLow : ∀ v m, IsDist g s v m → m < D → (plookup p v).isSome = true ∧ v ∉ q
  hlevelD : ∀ v, IsDist g s v D → (plookup p v).isSome = true
  hshape : ∃ A B, q = A ++ B ∧ (∀ x ∈ A, IsDist g s x D) ∧
    (∀ x ∈ B, IsDist g s x (D + 1))

/-- Popping a non-target head c establishes the expansion invariant. -/
theorem midInv_of_pop (g : List (List Bool)) (s e c : Cell) (rest : List Cell)
    (p : PrevMap) (hinv : BfsInv g s e (c :: rest) p) (hne : c ≠ e) :
    ∃ D, MidInv g s e c D rest p := by
  rcases hinv.hlevel with hnil | ⟨D, A, B, happ, hAne, hA, hB, hLow, hD⟩
  · cases hnil
  · cases A with
    | nil => exact absurd rfl hAne
    | cons a A' =>
      have hac : a = c := by
        have := happ
        simp only [List.cons_append] at this
        exact (List.cons.injEq _ _ _ _).mp this.symm |>.1
      subst hac
      have hrest : rest = A' ++ B := by
        have := happ
        simp only [List.cons_append] at this
        exact (List.cons.injEq _ _ _ _).mp this.symm |>.2.symm
      have hcd : IsDist g s a D := hA a (List.mem_cons_self _ _)
      refine ⟨D, ⟨hinv.hstart, hinv.hnone, hinv.hstep, hinv.hpdist, hinv.hdist,
        hinv.hnodup, hinv.hinb, ?_, ?_, ?_, ?_, hcd, hne, ?_, ?_, ?_, ?_, ?_⟩⟩
      · intro x hx
        exact hinv.hqsub x (List.mem_cons_of_mem _ hx)
      · exact (List.nodup_cons.mp hinv.hqnodup).2
      · exact hinv.hqsub a (List.mem_cons_self _ _)
      · exact (List.nodup_cons.mp hinv.hqnodup).1
      · intro hdisc
        rcases List.mem_cons.mp (hinv.htarget hdisc) with h | h
        · exact absurd h.symm hne
        · exact h
      · intro x hx hnq hnc n hstep
        exact hinv.hclosed x hx
          (by
            intro hmem
            rcases List.mem_cons.mp hmem with h | h
            · exact hnc h
            · exact hnq h) n hstep
      · intro v m hv hm
        obtain ⟨h1, h2⟩ := hLow v m hv hm
        exact ⟨h1, fun hmem => h2 (List.mem_cons_of_mem _ hmem)⟩
      · exact hD
      · exact ⟨A', B, hrest, fun x hx => hA x (List.mem_cons_of_mem _ hx), hB⟩

/-- One expansion step preserves the expansion invariant. -/
theorem midInv_expandOne (g : List (List Bool)) (s e c : Cell) (D : Nat)
    (q : List Cell) (p : PrevMap) (hmid : MidInv g s e c D q p)
    (d : (Int × Int) × Char) (hd : d ∈ dirs) :
    MidInv g s e c D (expandOne (gridCols g) (gridRows g) g c (q, p) d).1
      (expandOne (gridCols g) (gridRows g) g c (q, p) d).2 := by
  dsimp only [expandOne]
  split
  · rename_i hcond
    obtain ⟨hinb_n, hwalk_n, hfresh⟩ := hcond
    dsimp only
    set n := cellStep c d.1 with hn
    have hstep_n : StepOK g c n := ⟨⟨d, hd, rfl⟩, hinb_n, hwalk_n⟩
    have hdist_n : IsDist g s n (D + 1) := by
      obtain ⟨k, hkle, hk⟩ := isDist_le_succ g s c n D hmid.hcdist hstep_n
      by_cases hklt : k < D
      · have := (hmid.hlevelLow n k hk hklt).1
        rw [hfresh] at this
        cases this
      · by_cases hkeq : k = D
        · subst hkeq
          have := hmid.hlevelD n hk
          rw [hfresh] at this
          cases this
        · have : k = D + 1 := by omega
          subst this
          exact hk
    have hmono : ∀ x, (plookup p x).isSome = true →
        (plookup ((n, some (c, d.2)) :: p) x).isSome = true := by
      intro x hx
      obtain ⟨v, hv⟩ := Option.isSome_iff_exists.mp hx
      rw [plookup_cons_of_disc p n x _ hfresh v hv]
      rfl
    have hkeep : ∀ x v, plookup p x = some v →
        plookup ((n, some (c, d.2)) :: p) x = some v :=
      fun x v hv => plookup_cons_of_disc p n x _ hfresh v hv
    have hcharac : ∀ x, x ≠ n →
        plookup ((n, some (c, d.2)) :: p) x = plookup p x :=
      fun x hx => plookup_cons_ne _ _ _ _ (fun hh => hx hh.symm)
    have hfresh_ne : ∀ x, (plookup p x).isSome = true → x ≠ n := by
      intro x hx hc
      subst hc
      rw [hfresh] at hx
      cases hx
    have hcne_n : c ≠ n := hfresh_ne c hmid.hcdisc
    refine ⟨?_, ?_, ?_, ?_, ?_, ?_, ?_, ?_, ?_, ?_, ?_, hmid.hcdist, hmid.hcne,
      ?_, ?_, ?_, ?_, ?_⟩
    · exact hkeep s none hmid.hstart
    · intro x hx
      by_cases hxn : x = n
      · subst hxn
        rw [plookup_cons_self] at hx
        cases hx
      · rw [hcharac x hxn] at hx
        exact hmid.hnone x hx
    · intro x pc a hx
      by_cases hxn : x = n
      · subst hxn
        rw [plookup_cons_self] at hx
        simp only [Option.some.injEq, Prod.mk.injEq] at hx
        obtain ⟨hx1, hx2⟩ := hx
        refine ⟨⟨d, hd, by rw [← hx2], by rw [← hx1, hn]⟩, hinb_n, hwalk_n, ?_⟩
        rw [← hx1]
        exact hmono c hmid.hcdisc
      · rw [hcharac x hxn] at hx
        obtain ⟨h1, h2, h3, h4⟩ := hmid.hstep x pc a hx
        exact ⟨h1, h2, h3, hmono pc h4⟩
    · intro x pc a hx
      by_cases hxn : x = n
      · subst hxn
        rw [plookup_cons_self] at hx
        simp only [Option.some.injEq, Prod.mk.injEq] at hx
        obtain ⟨hx1, hx2⟩ := hx
        rw [← hx1]
        exact ⟨D, hmid.hcdist, hdist_n⟩
      · rw [hcharac x hxn] at hx
        exact hmid.hpdist x pc a hx
    · intro x hx
      by_cases hxn : x = n
      · subst hxn
        exact ⟨D + 1, hdist_n⟩
      · rw [hcharac x hxn] at hx
        exact hmid.hdist x hx
    · simp only [List.map_cons]
      exact List.nodup_cons.mpr ⟨plookup_none_iff p n |>.mp hfresh, hmid.hnodup⟩
    · intro x hx
      by_cases hxn : x = n
      · subst hxn
        exact hinb_n
      · rw [hcharac x hxn] at hx
        exact hmid.hinb x hx
    · intro x hx
      rcases List.mem_append.mp hx with h | h
      · exact hmono x (hmid.hqsub x h)
      · rw [List.mem_singleton.mp h, plookup_cons_self]
        rfl
    · rw [List.nodup_append]
      refine ⟨hmid.hqnodup, List.nodup_singleton n, ?_⟩
      intro x hxq hxn
      rw [List.mem_singleton.mp hxn] at hxq
      have := hmid.hqsub n hxq
      rw [hfresh] at this
      cases this
    · exact hmono c hmid.hcdisc
    · intro hc
      rcases List.mem_append.mp hc with h | h
      · exact hmid.hcnotq h
      · exact hcne_n (List.mem_singleton.mp h)
    · intro hdisc
      by_cases hen : e = n
      · subst hen
        exact List.mem_append.mpr (Or.inr (List.mem_singleton.mpr rfl))
      · rw [hcharac e hen] at hdisc
        exact List.mem_append.mpr (Or.inl (hmid.htarget hdisc))
    · intro x hx hnq hnc m hstep
      have hxn : x ≠ n := by
        intro hc
        subst hc
        exact hnq (List.mem_append.mpr (Or.inr (List.mem_singleton.mpr rfl)))
      rw [hcharac x hxn] at hx
      exact hmono m (hmid.hclosedx x hx
        (fun hc => hnq (List.mem_append.mpr (Or.inl hc))) hnc m hstep)
    · intro v m hv hm
      obtain ⟨h1, h2⟩ := hmid.hlevelLow v m hv hm
      refine ⟨hmono v h1, ?_⟩
      intro hc
      rcases List.mem_append.mp hc with h | h
      · exact h2 h
      · exact hfresh_ne v h1 (List.mem_singleton.mp h)
    · intro v hv
      exact hmono v (hmid.hlevelD v hv)
    · obtain ⟨A, B, happ, hA, hB⟩ := hmid.hshape
      refine ⟨A, B ++ [n], by rw [happ, List.append_assoc], hA, ?_⟩
      intro x hx
      rcases List.mem_append.mp hx with h | h
      · exact hB x h
      · rw [List.mem_singleton.mp h]
        exact hdist_n
  · exact hmid

/-- Discovery is monotone along one expansion step. -/
theorem expandOne_mono (cols rows : Nat) (g : List (List Bool)) (c : Cell)
    (qp : List Cell × PrevMap) (d : (Int × Int) × Char) (x : Cell)
    (hx : (plookup qp.2 x).isSome = true) :
    (plookup (expandOne cols rows g c qp d).2 x).isSome = true := by
  dsimp only [expandOne]
  split
  · rename_i hcond
    obtain ⟨v, hv⟩ := Option.isSome_iff_exists.mp hx
    rw [plookup_cons_of_disc _ _ _ _ hcond.2.2 v hv]
    rfl
  · exact hx

theorem expand_fold_mono (cols rows : Nat) (g : List (List Bool)) (c : Cell) :
    ∀ (ds : List ((Int × Int) × Char)) (qp : List Cell × PrevMap) (x : Cell),
      (plookup qp.2 x).isSome = true →
      (plookup (ds.foldl (expandOne cols rows g c) qp).2 x).isSome = true := by
  intro ds
  induction ds with
  | nil => intro qp x hx; exact hx
  | cons d rest ih =>
    intro qp x hx
    rw [List.foldl_cons]
    exact ih _ x (expandOne_mono cols rows g c qp d x hx)

/-- One expansion step extends queue and map together. -/
theorem expandOne_length (cols rows : Nat) (g : List (List Bool)) (c : Cell)
    (qp : List Cell × PrevMap) (d : (Int × Int) × Char) :
    (expandOne cols rows g c qp d).1.length + qp.2.length =
      qp.1.length + (expandOne cols rows g c qp d).2.length := by
  dsimp only [expandOne]
  split
  · simp
    omega
  · rfl

theorem expand_fold_length (cols rows : Nat) (g : List (List Bool)) (c : Cell) :
    ∀ (ds : List ((Int × Int) × Char)) (qp : List Cell × PrevMap),
      (ds.foldl (expandOne cols rows g c) qp).1.length + qp.2.length =
        qp.1.length + (ds.foldl (expandOne cols rows g c) qp).2.length := by
  intro ds
  induction ds with
  | nil => intro qp; rfl
  | cons d rest ih =>
    intro qp
    rw [List.foldl_cons]
    have h1 := expandOne_length cols rows g c qp d
    have h2 := ih (expandOne cols rows g c qp d)
    omega

theorem expand_fold_p_mono (cols rows : Nat) (g : List (List Bool)) (c : Cell) :
    ∀ (ds : List ((Int × Int) × Char)) (qp : List Cell × PrevMap),
      qp.2.length ≤ (ds.foldl (expandOne cols rows g c) qp).2.length := by
  intro ds
  induction ds with
  | nil => intro qp; exact Nat.le_refl _
  | cons d rest ih =>
    intro qp
    rw [List.foldl_cons]
    refine Nat.le_trans ?_ (ih _)
    dsimp only [expandOne]
    split
    · simp
    · exact Nat.le_refl _

/-- Folding the expansion over a sublist of dirs preserves the invariant and
    discovers every processed neighbor. -/
theorem midInv_expand_fold (g : List (List Bool)) (s e c : Cell) (D : Nat) :
    ∀ (ds : List ((Int × Int) × Char)), (∀ d ∈ ds, d ∈ dirs) →
    ∀ (qp : List Cell × PrevMap), MidInv g s e c D qp.1 qp.2 →
      MidInv g s e c D
        (ds.foldl (expandOne (gridCols g) (gridRows g) g c) qp).1
        (ds.foldl (expandOne (gridCols g) (gridRows g) g c) qp).2 ∧
      (∀ d ∈ ds, ∀ n, n = cellStep c d.1 → InBounds g n → cellWalk g n = true →
        (plookup (ds.foldl (expandOne (gridCols g) (gridRows g) g c) qp).2 n).isSome = true) := by
  intro ds
  induction ds with
  | nil =>
    intro _ qp hmid
    exact ⟨hmid, fun d hd => absurd hd (List.not_mem_nil d)⟩
  | cons d rest ih =>
    intro hsub qp hmid
    have hd : d ∈ dirs := hsub d (List.mem_cons_self _ _)
    have hmid' := midInv_expandOne g s e c D qp.1 qp.2 hmid d hd
    rw [List.foldl_cons]
    have hqp : (expandOne (gridCols g) (gridRows g) g c (qp.1, qp.2) d) =
        (expandOne (gridCols g) (gridRows g) g c qp d) := by
      rw [Prod.mk.eta]
    rw [hqp] at hmid'
    obtain ⟨hfin, hcov⟩ := ih (fun d' hd' => hsub d' (List.mem_cons_of_mem _ hd')) _ hmid'
    refine ⟨hfin, ?_⟩
    intro d' hd' n hn hinb hwalk
    rcases List.mem_cons.mp hd' with h | h
    · subst h
      apply expand_fold_mono
      dsimp only [expandOne]
      subst hn
      split
      · rw [plookup_cons_self]
        rfl
      · rename_i hcond
        push_neg at hcond
        have := hcond hinb hwalk
        rcases h : plookup qp.2 (cellStep c d'.1) with hv | v
        · exact absurd h this
        · rfl
    · exact hcov d' h n hn hinb hwalk

/-- After a full expansion of the popped head, the loop invariant holds again. -/
theorem bfsInv_step (g : List (List Bool)) (s e c : Cell) (rest : List Cell)
    (p : PrevMap) (hinv : BfsInv g s e (c :: rest) p) (hne : c ≠ e) :
    BfsInv g s e
      (dirs.foldl (expandOne (gridCols g) (gridRows g) g c) (rest, p)).1
      (dirs.foldl (expandOne (gridCols g) (gridRows g) g c) (rest, p)).2 := by
  obtain ⟨D, hmid⟩ := midInv_of_pop g s e c rest p hinv hne
  obtain ⟨hfin, hcov⟩ := midInv_expand_fold g s e c D dirs (fun d hd => hd) (rest, p) hmid
  have hcov' : ∀ n, StepOK g c n →
      (plookup (dirs.foldl (expandOne (gridCols g) (gridRows g) g c) (rest, p)).2 n).isSome = true := by
    rintro n ⟨⟨d, hd, hn⟩, hinb, hwalk⟩
    exact hcov d hd n hn hinb hwalk
  refine ⟨hfin.hstart, hfin.hnone, hfin.hstep, hfin.hpdist, hfin.hdist, hfin.hnodup,
    hfin.hinb, hfin.hqsub, hfin.hqnodup, hfin.htarget, ?_, ?_⟩
  · intro x hx hnq m hstep
    by_cases hxc : x = c
    · subst hxc
      exact hcov' m hstep
    · exact hfin.hclosedx x hx hnq hxc m hstep
  · obtain ⟨A, B, happ, hA, hB⟩ := hfin.hshape
    cases hAc : A with
    | cons a A' =>
      refine Or.inr ⟨D, A, B, happ, by rw [hAc]; exact List.cons_ne_nil a A', hA, hB,
        ?_, hfin.hlevelD⟩
      intro v m hv hm
      exact hfin.hlevelLow v m hv hm
    | nil =>
      subst hAc
      rw [List.nil_append] at happ
      cases hBc : B with
      | nil =>
        subst hBc
        exact Or.inl happ
      | cons b B' =>
        refine Or.inr ⟨D + 1, B, [], by rw [happ, List.append_nil],
          by rw [hBc]; exact List.cons_ne_nil b B', hB, by simp, ?_, ?_⟩
        · intro v m hv hm
          by_cases hmD : m < D
          · obtain ⟨h1, h2⟩ := hfin.hlevelLow v m hv hmD
            exact ⟨h1, h2⟩
          · have hmeq : m = D := by omega
            subst hmeq
            refine ⟨hfin.hlevelD v hv, ?_⟩
            intro hcmem
            rw [happ] at hcmem
            have := hB v hcmem
            have := isDist_unique g s v m (m + 1) hv this
            omega
        · intro v hv
          obtain ⟨u, hustep, hudist⟩ := isDist_pred g s v D hv
          have hudisc := hfin.hlevelD u hudist
          have hunq : u ∉ (dirs.foldl (expandOne (gridCols g) (gridRows g) g c) (rest, p)).1 := by
            intro hmem
            rw [happ] at hmem
            have := hB u hmem
            have := isDist_unique g s u D (D + 1) hudist this
            omega
          by_cases huc : u = c
          · subst huc
            exact hcov' v hustep
          · exact hfin.hclosedx u hudisc hunq huc v hustep

/-- The predecessor map never exceeds the cell count of the grid. -/
theorem prev_length_le (g : List (List Bool)) (p : PrevMap)
    (hnodup : (p.map Prod.fst).Nodup)
    (hinb : ∀ c, (plookup p c).isSome = true → InBounds g c) :
    p.length ≤ gridRows g * gridCols g := by
  set keys := p.map Prod.fst with hkeys
  have hlen : p.length = keys.length := (List.length_map p Prod.fst).symm
  rw [hlen]
  have hsub : ∀ c ∈ keys, c ∈ ((Finset.Icc (0 : Int) ((gridCols g : Int) - 1)) ×ˢ
      (Finset.Icc (0 : Int) ((gridRows g : Int) - 1))) := by
    intro c hc
    have hdisc : (plookup p c).isSome = true := (plookup_isSome_iff p c).mpr hc
    obtain ⟨h1, h2, h3, h4⟩ := hinb c hdisc
    rw [Finset.mem_product, Finset.mem_Icc, Finset.mem_Icc]
    constructor <;> constructor <;> omega
  calc keys.length = keys.toFinset.card := (List.toFinset_card_of_nodup hnodup).symm
    _ ≤ ((Finset.Icc (0 : Int) ((gridCols g : Int) - 1)) ×ˢ
        (Finset.Icc (0 : Int) ((gridRows g : Int) - 1))).card := by
        apply Finset.card_le_card
        intro c hc
        rw [List.mem_toFinset] at hc
        exact hsub c hc
    _ = gridRows g * gridCols g := by
        rw [Finset.card_product, Int.card_Icc, Int.card_Icc]
        have h1 : ((gridCols g : Int) - 1 + 1 - 0).toNat = gridCols g := by omega
        have h2 : ((gridRows g : Int) - 1 + 1 - 0).toNat = gridRows g := by omega
        rw [h1, h2, Nat.mul_comm]

/-- With an empty queue, every reachable cell has been discovered. -/
theorem reach_disc_of_empty (g : List (List Bool)) (s e : Cell) (p : PrevMap)
    (hinv : BfsInv g s e [] p) :
    ∀ (l : List Cell) (c : Cell), ValidSeq g s c l →
      (plookup p c).isSome = true := by
  suffices h : ∀ (n : Nat) (l : List Cell) (c : Cell), l.length = n + 1 →
      ValidSeq g s c l → (plookup p c).isSome = true by
    intro l c hl
    have := valid_length_pos g s c l hl
    exact h (l.length - 1) l c (by omega) hl
  intro n
  induction n with
  | zero =>
    intro l c hlen hl
    cases l with
    | nil => cases hl.1
    | cons x rest =>
      cases rest with
      | cons y rest2 => simp at hlen
      | nil =>
        have h1 := hl.1
        have h2 := hl.2.1
        simp only [List.head?_cons, Option.some.injEq] at h1
        simp only [List.getLast?_singleton, Option.some.injEq] at h2
        rw [← h2, h1, hinv.hstart]
        rfl
  | succ n ih =>
    intro l c hlen hl
    obtain ⟨l', c', heq, hl', hstep, hlen'⟩ := valid_split_last g s c l hl (by omega)
    have hdisc' := ih l' c' (by omega) hl'
    exact hinv.hclosed c' hdisc' (List.not_mem_nil c') c hstep

/-- Main loop specification: with the invariant and enough fuel the loop
    always answers; NotFound implies unreachability; Found returns a final
    map satisfying the invariant with the target at the queue head. -/
theorem bfsLoop_spec (g : List (List Bool)) (s e : Cell) :
    ∀ (fuel : Nat) (q : List Cell) (p : PrevMap), BfsInv g s e q p →
      q.length + (gridRows g * gridCols g - p.length) < fuel →
      (∃ r, bfsLoop (gridCols g) (gridRows g) g e fuel q p = some r) ∧
      (bfsLoop (gridCols g) (gridRows g) g e fuel q p = some none →
        ¬ ∃ l, ValidSeq g s e l) ∧
      (∀ pf, bfsLoop (gridCols g) (gridRows g) g e fuel q p = some (some pf) →
        ∃ restq, BfsInv g s e (e :: restq) pf) := by
  intro fuel
  induction fuel with
  | zero =>
    intro q p _ hμ
    omega
  | succ fuel ih =>
    intro q p hinv hμ
    cases q with
    | nil =>
      refine ⟨⟨none, rfl⟩, ?_, ?_⟩
      · intro _ hreach
        obtain ⟨l, hl⟩ := hreach
        have hdisc := reach_disc_of_empty g s e p hinv l e hl
        exact absurd (hinv.htarget hdisc) (List.not_mem_nil e)
      · intro pf h
        simp only [bfsLoop, Option.some.injEq] at h
        cases h
    | cons c rest =>
      by_cases hce : c = e
      · subst hce
        refine ⟨⟨some p, by simp [bfsLoop]⟩, ?_, ?_⟩
        · intro h
          simp [bfsLoop] at h
        · intro pf h
          simp [bfsLoop] at h
          rw [← h]
          exact ⟨rest, hinv⟩
      · have hinv' := bfsInv_step g s e c rest p hinv hce
        have hlen := expand_fold_length (gridCols g) (gridRows g) g c dirs (rest, p)
        have hpmono := expand_fold_p_mono (gridCols g) (gridRows g) g c dirs (rest, p)
        have hple := prev_length_le g
          (dirs.foldl (expandOne (gridCols g) (gridRows g) g c) (rest, p)).2
          hinv'.hnodup hinv'.hinb
        have hμ' : (dirs.foldl (expandOne (gridCols g) (gridRows g) g c) (rest, p)).1.length +
            (gridRows g * gridCols g -
              (dirs.foldl (expandOne (gridCols g) (gridRows g) g c) (rest, p)).2.length) < fuel := by
          simp only [List.length_cons] at hμ
          dsimp only at hlen hpmono
          omega
        have heq : bfsLoop (gridCols g) (gridRows g) g e (fuel + 1) (c :: rest) p =
            bfsLoop (gridCols g) (gridRows g) g e fuel
              (dirs.foldl (expandOne (gridCols g) (gridRows g) g c) (rest, p)).1
              (dirs.foldl (expandOne (gridCols g) (gridRows g) g c) (rest, p)).2 := by
          simp only [bfsLoop, if_neg hce]
        obtain ⟨⟨r, hr⟩, h2, h3⟩ := ih _ _ hinv' hμ'
        refine ⟨⟨r, by rw [heq]; exact hr⟩, ?_, ?_⟩
        · intro h
          rw [heq] at h
          exact h2 h
        · intro pf h
          rw [heq] at h
          exact h3 pf h

/-! ## Pathfinder: reconstruction -/

theorem scanl_concat {α β : Type} (f : α → β → α) (x : β) :
    ∀ (l : List β) (b : α),
      List.scanl f b (l ++ [x]) = List.scanl f b l ++ [f (l.foldl f b) x] := by
  intro l
  induction l with
  | nil => intro b; simp [List.scanl]
  | cons a l ih =>
    intro b
    simp only [List.cons_append, List.scanl_cons, List.foldl_cons]
    rw [ih (f b a)]
    rfl

theorem scanl_last {α β : Type} (f : α → β → α) :
    ∀ (l : List β) (b : α),
      (List.scanl f b l).getLast? = some (l.foldl f b) := by
  intro l
  induction l with
  | nil => intro b; simp [List.scanl]
  | cons a l ih =>
    intro b
    rw [List.scanl_cons]
    have hne : List.scanl f (f b a) l ≠ [] := by cases l <;> simp [List.scanl]
    obtain ⟨y, t, hyt⟩ := List.exists_cons_of_ne_nil hne
    rw [hyt, List.singleton_append, List.getLast?_cons_cons, ← hyt, ih]
    rfl

/-- Every discovered cell at distance n yields n+1 pairwise distinct
    discovered cells (its predecessor chain), bounding n by the map size. -/
theorem chain_of_dist (g : List (List Bool)) (s : Cell) (p : PrevMap)
    (hnone : ∀ c, plookup p c = some none → c = s)
    (hstepF : ∀ c pc a, plookup p c = some (some (pc, a)) →
      (∃ d ∈ dirs, a = d.2 ∧ c = cellStep pc d.1) ∧ InBounds g c ∧
      cellWalk g c = true ∧ (plookup p pc).isSome = true)
    (hpdist : ∀ c pc a, plookup p c = some (some (pc, a)) →
      ∃ m, IsDist g s pc m ∧ IsDist g s c (m + 1)) :
    ∀ (n : Nat) (c : Cell), IsDist g s c n → (plookup p c).isSome = true →
      ∃ L : List Cell, L.length = n + 1 ∧ L.Nodup ∧
        ∀ x ∈ L, (plookup p x).isSome = true ∧ ∃ k, k ≤ n ∧ IsDist g s x k := by
  intro n
  induction n with
  | zero =>
    intro c hdist hdisc
    exact ⟨[c], rfl, List.nodup_singleton c, fun x hx => by
      rw [List.mem_singleton.mp hx]
      exact ⟨hdisc, 0, Nat.le_refl 0, hdist⟩⟩
  | succ n ih =>
    intro c hdist hdisc
    obtain ⟨v, hv⟩ := Option.isSome_iff_exists.mp hdisc
    cases v with
    | none =>
      have hcs := hnone c hv
      rw [hcs] at hdist
      have := isDist_unique g s s (n + 1) 0 hdist (isDist_self g s)
      omega
    | some pca =>
      obtain ⟨pc, a⟩ := pca
      obtain ⟨m, hmpc, hmc⟩ := hpdist c pc a hv
      have hmn : m = n := by
        have := isDist_unique g s c (m + 1) (n + 1) hmc hdist
        omega
      rw [hmn] at hmpc hmc
      have hpcdisc := (hstepF c pc a hv).2.2.2
      obtain ⟨L', hlen, hnd, hmem⟩ := ih pc hmpc hpcdisc
      refine ⟨c :: L', by simp [hlen], ?_, ?_⟩
      · rw [List.nodup_cons]
        refine ⟨?_, hnd⟩
        intro hcmem
        obtain ⟨_, k, hk, hkd⟩ := hmem c hcmem
        have := isDist_unique g s c k (n + 1) hkd hdist
        omega
      · intro x hx
        rcases List.mem_cons.mp hx with h | h
        · subst h
          exact ⟨hdisc, n + 1, Nat.le_refl _, hdist⟩
        · obtain ⟨h1, k, hk, hkd⟩ := hmem x h
          exact ⟨h1, k, by omega, hkd⟩

theorem nodup_subset_length {α : Type} [DecidableEq α] (l l' : List α)
    (h : l.Nodup) (hsub : ∀ x ∈ l, x ∈ l') : l.length ≤ l'.length := by
  calc l.length = l.toFinset.card := (List.toFinset_card_of_nodup h).symm
    _ ≤ l'.toFinset.card := Finset.card_le_card (fun x hx => by
        rw [List.mem_toFinset] at hx ⊢
        exact hsub x hx)
    _ ≤ l'.length := l'.toFinset_card_le

/-- A discovered cell at distance n bounds n by the size of the map. -/
theorem dist_le_prev_length (g : List (List Bool)) (s : Cell) (p : PrevMap)
    (hnone : ∀ c, plookup p c = some none → c = s)
    (hstepF : ∀ c pc a, plookup p c = some (some (pc, a)) →
      (∃ d ∈ dirs, a = d.2 ∧ c = cellStep pc d.1) ∧ InBounds g c ∧
      cellWalk g c = true ∧ (plookup p pc).isSome = true)
    (hpdist : ∀ c pc a, plookup p c = some (some (pc, a)) →
      ∃ m, IsDist g s pc m ∧ IsDist g s c (m + 1))
    (n : Nat) (c : Cell) (hdist : IsDist g s c n)
    (hdisc : (plookup p c).isSome = true) : n < p.length + 1 := by
  obtain ⟨L, hlen, hnd, hmem⟩ := chain_of_dist g s p hnone hstepF hpdist n c hdist hdisc
  have hsub : ∀ x ∈ L, x ∈ p.map Prod.fst := by
    intro x hx
    exact (plookup_isSome_iff p x).mp (hmem x hx).1
  have := nodup_subset_length L (p.map Prod.fst) hnd hsub
  rw [List.length_map] at this
  omega

/-- Path reconstruction: with enough fuel, backtracking from a discovered
    cell at distance n yields the n actions and n cells of a shortest path,
    appended to the accumulators exactly as the Python loop does. -/
theorem backtrack_spec (g : List (List Bool)) (s : Cell) (p : PrevMap)
    (hstart : plookup p s = some none)
    (hnone : ∀ c, plookup p c = some none → c = s)
    (hstepF : ∀ c pc a, plookup p c = some (some (pc, a)) →
      (∃ d ∈ dirs, a = d.2 ∧ c = cellStep pc d.1) ∧ InBounds g c ∧
      cellWalk g c = true ∧ (plookup p pc).isSome = true)
    (hpdist : ∀ c pc a, plookup p c = some (some (pc, a)) →
      ∃ m, IsDist g s pc m ∧ IsDist g s c (m + 1)) :
    ∀ (n : Nat) (c : Cell), IsDist g s c n → (plookup p c).isSome = true →
    ∀ (acc : List Char × List Cell) (fuel : Nat), n < fuel →
      ∃ A C, backtrack p fuel c acc = some (acc.1 ++ A, acc.2 ++ C) ∧
        A.length = n ∧ C.length = n ∧
        (C ++ [s]).reverse = List.scanl applyAct s A.reverse ∧
        ValidSeq g s c ((C ++ [s]).reverse) ∧
        (∀ ch ∈ A, ch ∈ (['R', 'L', 'D', 'U'] : List Char)) := by
  intro n
  induction n with
  | zero =>
    intro c hdist hdisc acc fuel hfuel
    have hcs := isDist_zero_eq g s c hdist
    rw [hcs]
    cases fuel with
    | zero => omega
    | succ f =>
      refine ⟨[], [], ?_, rfl, rfl, by simp [List.scanl], valid_singleton g s, by simp⟩
      simp [backtrack, hstart]
  | succ n ih =>
    intro c hdist hdisc acc fuel hfuel
    obtain ⟨v, hv⟩ := Option.isSome_iff_exists.mp hdisc
    cases v with
    | none =>
      have hcs := hnone c hv
      rw [hcs] at hdist
      have := isDist_unique g s s (n + 1) 0 hdist (isDist_self g s)
      omega
    | some pca =>
      obtain ⟨pc, a⟩ := pca
      obtain ⟨m, hmpc, hmc⟩ := hpdist c pc a hv
      have hmn : m = n := by
        have := isDist_unique g s c (m + 1) (n + 1) hmc hdist
        omega
      rw [hmn] at hmpc hmc
      obtain ⟨⟨d, hd, ha, hceq⟩, hinb_c, hwalk_c, hpcdisc⟩ := hstepF c pc a hv
      cases fuel with
      | zero => omega
      | succ f =>
        obtain ⟨A', C', hbt, hA'len, hC'len, hscan, hvalid, hchars⟩ :=
          ih pc hmpc hpcdisc (acc.1 ++ [a], acc.2 ++ [c]) f (by omega)
        have hfold : A'.reverse.foldl applyAct s = pc := by
          have h1 := scanl_last applyAct A'.reverse s
          rw [← hscan] at h1
          have h2 := hvalid.2.1
          rw [h1] at h2
          exact (Option.some.injEq _ _).mp h2
        have happc : applyAct pc a = c := by
          rw [ha, applyAct_of_dir d hd pc, ← hceq]
        refine ⟨a :: A', c :: C', ?_, by simp [hA'len], by simp [hC'len], ?_, ?_, ?_⟩
        · have hstep1 : backtrack p (f + 1) c acc =
              backtrack p f pc (acc.1 ++ [a], acc.2 ++ [c]) := by
            simp [backtrack, hv]
          rw [hstep1, hbt]
          simp
        · rw [List.reverse_cons, scanl_concat, hfold, happc]
          rw [List.cons_append, List.reverse_cons, ← hscan]
        · have hext := valid_append g s pc c ((C' ++ [s]).reverse) hvalid
            ⟨⟨d, hd, hceq⟩, hinb_c, hwalk_c⟩
          have : ((c :: C') ++ [s]).reverse = (C' ++ [s]).reverse ++ [c] := by
            rw [List.cons_append, List.reverse_cons]
          rw [this]
          exact hext
        · intro ch hch
          rcases List.mem_cons.mp hch with h | h
          · rw [h, ha]
            exact dirs_chars d hd
          · exact hchars ch h

/-! ## Pathfinder: endpoint soundness and completeness -/

theorem bfs_sound (g : List (List Bool)) (s e : Cell) (str : String)
    (coords : List Cell) (h : _bfs_find_path g s e = some (str, coords)) :
    ∃ n, IsDist g s e n ∧ ValidSeq g s e coords ∧ coords.length = n + 1 ∧
      str.length = n ∧ coords = List.scanl applyAct s str.data ∧
      (∀ ch ∈ str.data, ch ∈ (['R', 'L', 'D', 'U'] : List Char)) := by
  unfold _bfs_find_path at h
  split at h
  · cases h
  · rename_i hgrid
    dsimp only at h
    split at h
    · cases h
    · split at h
      · cases h
      · split at h
        · cases h
        · rename_i hins hine hwalk
          rw [not_not] at hins hine
          split at h
          · cases h
          · cases h
          · rename_i p heq
            have hinv0 : BfsInv g s e [s] [(s, none)] := bfsInv_init g s e hins
            have hrc : 1 ≤ gridRows g * gridCols g := by
              obtain ⟨h1, h2, h3, h4⟩ := hins
              have : 0 < gridCols g := by
                unfold gridCols
                omega
              have : 0 < gridRows g := by
                unfold gridRows
                omega
              exact Nat.one_le_iff_ne_zero.mpr (Nat.mul_ne_zero (by omega) (by omega))
            have hspec := bfsLoop_spec g s e (gridRows g * gridCols g + 1)
              [s] [(s, none)] hinv0 (by simp; omega)
            obtain ⟨restq, hinvf⟩ := hspec.2.2 p heq
            have hdisc : (plookup p e).isSome = true :=
              hinvf.hqsub e (List.mem_cons_self _ _)
            obtain ⟨De, hDe⟩ := hinvf.hdist e hdisc
            have hbound := dist_le_prev_length g s p hinvf.hnone hinvf.hstep
              hinvf.hpdist De e hDe hdisc
            obtain ⟨A, C, hbt, hAlen, hClen, hscan, hvalid, hchars⟩ :=
              backtrack_spec g s p hinvf.hstart hinvf.hnone hinvf.hstep hinvf.hpdist
                De e hDe hdisc ([], []) (p.length + 1) hbound
            rw [hbt] at h
            simp only [List.nil_append, Option.some.injEq, Prod.mk.injEq] at h
            obtain ⟨hstr, hcoords⟩ := h
            refine ⟨De, hDe, ?_, ?_, ?_, ?_, ?_⟩
            · rw [← hcoords]
              exact hvalid
            · rw [← hcoords]
              simp [hClen]
            · rw [← hstr]
              simp [hAlen]
            · rw [← hcoords, ← hstr]
              simp [hscan]
            · intro ch hch
              rw [← hstr] at hch
              exact hchars ch (List.mem_reverse.mp hch)

theorem bfs_complete (g : List (List Bool)) (s e : Cell)
    (hs : InBounds g s) (he : InBounds g e) (hw : cellWalk g e = true)
    (hreach : ∃ l, ValidSeq g s e l) :
    ∃ str coords, _bfs_find_path g s e = some (str, coords) := by
  have hsb : inb (g.headD []).length g.length s := hs
  have heb : inb (g.headD []).length g.length e := he
  have hcols : 0 < (g.headD []).length := by
    obtain ⟨h1, h2, h3, h4⟩ := hsb
    omega
  have hrows : 0 < g.length := by
    obtain ⟨h1, h2, h3, h4⟩ := hsb
    omega
  unfold _bfs_find_path
  rw [if_neg (by omega)]
  dsimp only
  rw [if_neg (not_not_intro hsb), if_neg (not_not_intro heb),
    if_neg (by simp [hw])]
  have hinv0 : BfsInv g s e [s] [(s, none)] := bfsInv_init g s e hs
  have hrc : 1 ≤ gridRows g * gridCols g :=
    Nat.one_le_iff_ne_zero.mpr (Nat.mul_ne_zero
      (show gridRows g ≠ 0 by unfold gridRows; omega)
      (show gridCols g ≠ 0 by unfold gridCols; omega))
  have hspec := bfsLoop_spec g s e (gridRows g * gridCols g + 1)
    [s] [(s, none)] hinv0 (by simp; omega)
  obtain ⟨r, hr⟩ := hspec.1
  cases r with
  | none => exact absurd hreach (hspec.2.1 hr)
  | some p =>
    obtain ⟨restq, hinvf⟩ := hspec.2.2 p hr
    have hdisc : (plookup p e).isSome = true :=
      hinvf.hqsub e (List.mem_cons_self _ _)
    obtain ⟨De, hDe⟩ := hinvf.hdist e hdisc
    have hbound := dist_le_prev_length g s p hinvf.hnone hinvf.hstep
      hinvf.hpdist De e hDe hdisc
    obtain ⟨A, C, hbt, hAlen, hClen, hscan, hvalid, hchars⟩ :=
      backtrack_spec g s p hinvf.hstart hinvf.hnone hinvf.hstep hinvf.hpdist
        De e hDe hdisc ([], []) (p.length + 1) hbound
    have hr' : bfsLoop (g.headD []).length g.length g e
        (g.length * (g.headD []).length + 1) [s] [(s, none)] = some (some p) := hr
    rw [hr']
    dsimp only
    have hbt' : backtrack p (p.length + 1) e ([], []) =
        some ([] ++ A, [] ++ C) := hbt
    rw [hbt']
    exact ⟨String.mk ([] ++ A : List Char).reverse, (([] ++ C) ++ [s]).reverse, rfl⟩

instance (g : List (List Bool)) (c : Cell) : Decidable (InBounds g c) :=
  inferInstanceAs (Decidable (inb (gridCols g) (gridRows g) c))

instance (g : List (List Bool)) (c n : Cell) : Decidable (StepOK g c n) :=
  inferInstanceAs (Decidable ((∃ d ∈ dirs, n = cellStep c d.1) ∧ InBounds g n ∧
    cellWalk g n = true))

/-- Executable test for the chain condition of ValidSeq. -/
def chainOKB (g : List (List Bool)) : List Cell → Bool
  | [] => true
  | [_] => true
  | a :: b :: rest => decide (StepOK g a b) && chainOKB g (b :: rest)

theorem chainOKB_iff (g : List (List Bool)) :
    ∀ l : List Cell, chainOKB g l = true ↔ l.Chain' (StepOK g) := by
  intro l
  induction l with
  | nil => simp [chainOKB]
  | cons a rest ih =>
    cases rest with
    | nil => simp [chainOKB]
    | cons b r2 =>
      rw [List.chain'_cons]
      rw [← ih]
      simp [chainOKB]

instance (g : List (List Bool)) (s e : Cell) (l : List Cell) :
    Decidable (ValidSeq g s e l) :=
  decidable_of_decidable_of_iff
    (p := l.head? = some s ∧ l.getLast? = some e ∧ chainOKB g l = true)
    (by unfold ValidSeq; rw [chainOKB_iff])

instance (g : List (List Bool)) : Decidable (RectGrid g) :=
  inferInstanceAs (Decidable (∀ row ∈ g, row.length = gridCols g))

/-! ## C1: shortest paths and completeness -/

/-- Claim C1: whenever _bfs_find_path returns a result, the coordinate path
    is a valid sequence whose length is minimal among all sequences from
    start to end in which every cell after the first is walkable, and the
    action string has exactly one letter per step; and whenever start and
    end are in bounds, end is walkable and such a sequence exists, the
    function returns a result. -/
theorem bfs_shortest_and_complete :
    ∀ (g : List (List Bool)) (s e : Cell), RectGrid g →
      (∀ str coords, _bfs_find_path g s e = some (str, coords) →
        ValidSeq g s e coords ∧ str.length + 1 = coords.length ∧
        ∀ l, ValidSeq g s e l → coords.length ≤ l.length) ∧
      (InBounds g s → InBounds g e → cellWalk g e = true →
        (∃ l, ValidSeq g s e l) → (_bfs_find_path g s e).isSome = true) := by
  intro g s e _hrect
  constructor
  · intro str coords h
    obtain ⟨n, hDn, hvalid, hlen, hstrlen, _, _⟩ := bfs_sound g s e str coords h
    refine ⟨hvalid, by omega, ?_⟩
    intro l hl
    have := hDn.2 l hl
    omega
  · intro hs he hw hreach
    obtain ⟨str, coords, h⟩ := bfs_complete g s e hs he hw hreach
    rw [h]
    rfl

/-- Witness for C1 on a concrete 2x2 grid. -/
theorem bfs_shortest_and_complete_witness :
    (ValidSeq [[true, true], [true, true]] (0, 0) (1, 1) [(0, 0), (1, 0), (1, 1)] ∧
     ("RD" : String).length + 1 = ([(0, 0), (1, 0), (1, 1)] : List Cell).length ∧
     ∀ l, ValidSeq [[true, true], [true, true]] (0, 0) (1, 1) l →
       ([(0, 0), (1, 0), (1, 1)] : List Cell).length ≤ l.length) ∧
    (_bfs_find_path [[true, true], [true, true]] (0, 0) (1, 1)).isSome = true := by
  have h := bfs_shortest_and_complete [[true, true], [true, true]] (0, 0) (1, 1)
    (by decide)
  exact ⟨h.1 "RD" [(0, 0), (1, 0), (1, 1)] (by decide),
    h.2 (by decide) (by decide) (by decide) ⟨[(0, 0), (1, 0), (1, 1)], by decide⟩⟩

/-! ## C3: action/coordinate round trip -/

/-- Claim C3: whenever _bfs_find_path returns (actions, coords), the action
    string has one letter fewer than coords, coords starts at start and
    ends at end, and replaying the actions from start (R adds (1,0), L adds
    (-1,0), D adds (0,1), U adds (0,-1)) visits exactly the cells of coords
    in order, reproducing end. -/
theorem bfs_roundtrip :
    ∀ (g : List (List Bool)) (s e : Cell) (str : String) (coords : List Cell),
      RectGrid g → _bfs_find_path g s e = some (str, coords) →
      str.length = coords.length - 1 ∧ coords.head? = some s ∧
      coords.getLast? = some e ∧ coords = List.scanl applyAct s str.data := by
  intro g s e str coords _hrect h
  obtain ⟨n, _, hvalid, hlen, hstrlen, hscan, _⟩ := bfs_sound g s e str coords h
  exact ⟨by omega, hvalid.1, hvalid.2.1, hscan⟩

/-- Witness for C3 on a concrete 2x2 grid. -/
theorem bfs_roundtrip_witness :
    ("RD" : String).length = ([(0, 0), (1, 0), (1, 1)] : List Cell).length - 1 ∧
    ([(0, 0), (1, 0), (1, 1)] : List Cell).head? = some (0, 0) ∧
    ([(0, 0), (1, 0), (1, 1)] : List Cell).getLast? = some (1, 1) ∧
    ([(0, 0), (1, 0), (1, 1)] : List Cell) =
      List.scanl applyAct (0, 0) ("RD" : String).data :=
  bfs_roundtrip [[true, true], [true, true]] (0, 0) (1, 1) "RD"
    [(0, 0), (1, 0), (1, 1)] (by decide) (by decide)

/-! ## C6: the None cases of _bfs_find_path -/

/-- Claim C6: _bfs_find_path returns none (and, being a total function,
    raises nothing) when start or end is out of bounds, when end is a
    non-walkable cell, and when end is unreachable; a non-walkable start
    alone does not force none: the search proceeds and succeeds whenever
    the target is reachable. -/
theorem bfs_none_cases :
    ∀ (g : List (List Bool)) (s e : Cell), RectGrid g →
      (¬ InBounds g s → _bfs_find_path g s e = none) ∧
      (¬ InBounds g e → _bfs_find_path g s e = none) ∧
      (InBounds g e → cellWalk g e = false → _bfs_find_path g s e = none) ∧
      ((¬ ∃ l, ValidSeq g s e l) → _bfs_find_path g s e = none) ∧
      (InBounds g s → InBounds g e → cellWalk g e = true →
        (∃ l, ValidSeq g s e l) → (_bfs_find_path g s e).isSome = true) := by
  intro g s e hrect
  refine ⟨?_, ?_, ?_, ?_, ?_⟩
  · intro hs
    unfold _bfs_find_path
    split
    · rfl
    · dsimp only
      split
      · rfl
      · rename_i hcon
        exact absurd (show InBounds g s from not_not.mp hcon) hs
  · intro he
    unfold _bfs_find_path
    split
    · rfl
    · dsimp only
      split
      · rfl
      · split
        · rfl
        · rename_i hcon
          exact absurd (show InBounds g e from not_not.mp hcon) he
  · intro he hwf
    unfold _bfs_find_path
    split
    · rfl
    · dsimp only
      split
      · rfl
      · split
        · rfl
        · rfl
  · intro hunreach
    cases h : _bfs_find_path g s e with
    | none => rfl
    | some r =>
      obtain ⟨str, coords⟩ := r
      obtain ⟨n, _, hvalid, _, _, _, _⟩ := bfs_sound g s e str coords h
      exact absurd ⟨coords, hvalid⟩ hunreach
  · intro hs he hw hreach
    obtain ⟨str, coords, h⟩ := bfs_complete g s e hs he hw hreach
    rw [h]
    rfl

/-- Witness for C6 on concrete grids: out-of-bounds start, non-walkable
    end, unreachable end, and success from a non-walkable start. -/
theorem bfs_none_cases_witness :
    _bfs_find_path [[true, true]] (5, 0) (1, 0) = none ∧
    _bfs_find_path [[true, false]] (0, 0) (1, 0) = none ∧
    _bfs_find_path [[true, false, true]] (0, 0) (2, 0) = none ∧
    (_bfs_find_path [[false, true]] (0, 0) (1, 0)).isSome = true := by
  refine ⟨(bfs_none_cases [[true, true]] (5, 0) (1, 0) (by decide)).1 (by decide),
    (bfs_none_cases [[true, false]] (0, 0) (1, 0) (by decide)).2.2.1 (by decide) (by decide),
    (bfs_none_cases [[true, false, true]] (0, 0) (2, 0) (by decide)).2.2.2.1 ?_,
    (bfs_none_cases [[false, true]] (0, 0) (1, 0) (by decide)).2.2.2.2
      (by decide) (by decide) (by decide) ⟨[(0, 0), (1, 0)], by decide⟩⟩
  intro hcon
  have hsome := (bfs_none_cases [[true, false, true]] (0, 0) (2, 0) (by decide)).2.2.2.2
    (by decide) (by decide) (by decide) hcon
  rw [show _bfs_find_path [[true, false, true]] (0, 0) (2, 0) = none from by decide]
    at hsome
  cases hsome

/-! ## C9 (amended): BFS with start = end on a walkable in-bounds cell -/

/-- Claim C9 as amended: for every grid and every in-bounds walkable cell p,
    _bfs_find_path g p p returns the empty action string and the
    single-element coordinate path [p] (for an out-of-bounds or
    non-walkable p the end checks return none instead). -/
theorem bfs_self_spec :
    ∀ (g : List (List Bool)) (p : Cell), RectGrid g → InBounds g p →
      cellWalk g p = true → _bfs_find_path g p p = some ("", [p]) := by
  intro g p _hrect hin hw
  obtain ⟨str, coords, h⟩ := bfs_complete g p p hin hin hw ⟨[p], valid_singleton g p⟩
  obtain ⟨n, hDn, hvalid, hlen, hstrlen, hscan, _⟩ := bfs_sound g p p str coords h
  have hn0 : n = 0 := isDist_unique g p p n 0 hDn (isDist_self g p)
  subst hn0
  have hdata : str.data = [] := by
    have : str.data.length = 0 := hstrlen
    exact List.eq_nil_of_length_eq_zero this
  have hstr : str = "" := by
    cases str with
    | mk data =>
      simp only [String.data] at hdata
      rw [hdata]
  have hcoords : coords = [p] := by
    rw [hscan, hdata]
    rfl
  rw [h, hstr, hcoords]

/-- Witness for the amended C9 on a concrete grid. -/
theorem bfs_self_spec_witness :
    _bfs_find_path [[true]] (0, 0) (0, 0) = some ("", [(0, 0)]) :=
  bfs_self_spec [[true]] (0, 0) (by decide) (by decide) (by decide)

/-! ## A concrete demonstration ROM for evaluating the loader pipeline

demoRom is a 51,200-byte buffer (3 banks and a tail) holding one map:
map 0 points at a header at offset 0x10 with tileset 0, height 1, width 1
and tile map pointer 0x20; tileset 0 has its blocks at 0x100 (16 zero
subtiles), its collision table at 0x200 (the single byte 0x00 before the
0xFF sentinel).  Every byte not listed is 0x00. -/

theorem getD_rep_skip (n : Nat) (a : Nat) (rest : List Nat) (m : Nat) (h : n ≤ m) :
    (List.replicate n a ++ rest).getD m 0 = rest.getD (m - n) 0 := by
  rw [List.getD_append_right]
  · rw [List.length_replicate]
  · rw [List.length_replicate]; exact h

theorem getD_rep_hit (n : Nat) (a : Nat) (rest : List Nat) (m : Nat) (h : m < n) :
    (List.replicate n a ++ rest).getD m 0 = a := by
  rw [List.getD_append]
  · rw [List.getD_eq_getElem?_getD]
    simp [List.getElem?_replicate, h]
  · rw [List.length_replicate]; exact h

theorem getD_cons_skip (a : Nat) (rest : List Nat) (m : Nat) (h : 1 ≤ m) :
    (a :: rest).getD m 0 = rest.getD (m - 1) 0 := by
  obtain ⟨k, rfl⟩ : ∃ k, m = k + 1 := ⟨m - 1, by omega⟩
  simp [List.getD_cons_succ]

theorem getD_rep (n : Nat) (a : Nat) (m : Nat) (h : m < n) :
    (List.replicate n a).getD m 0 = a := by
  rw [List.getD_eq_getElem?_getD]
  simp [List.getElem?_replicate, h]

/-- The demonstration ROM byte buffer. -/
def demoRom : List Nat :=
  List.replicate 0x11 0 ++ (1 :: 1 :: 0x20 ::
  (List.replicate 0x19A 0 ++ (0x10 :: 0 ::
  (List.replicate 0x51 0 ++ (0xFF ::
  (List.replicate 0xC5BE 0 ++ (0x01 ::
  (List.replicate 3 0 ++ (0x02 ::
  List.replicate 0x3B 0)))))))))

theorem demoRom_length : demoRom.length = 51200 := by
  rw [demoRom]
  rw [List.length_append, List.length_cons, List.length_cons, List.length_cons,
      List.length_append, List.length_cons, List.length_cons,
      List.length_append, List.length_cons,
      List.length_append, List.length_cons,
      List.length_append, List.length_cons]
  rw [List.length_replicate, List.length_replicate, List.length_replicate,
      List.length_replicate, List.length_replicate, List.length_replicate]

theorem demoRom_getD_1AE : demoRom.getD 0x1AE 0 = 0x10 := by
  rw [demoRom]
  simp only [getD_rep_skip, getD_rep_hit, getD_cons_skip, getD_rep, List.getD_cons_zero,
    Nat.reduceLeDiff, Nat.reduceLT, Nat.reduceSub]

theorem demoRom_getD_1AF : demoRom.getD 0x1AF 0 = 0 := by
  rw [demoRom]
  simp only [getD_rep_skip, getD_rep_hit, getD_cons_skip, getD_rep, List.getD_cons_zero,
    Nat.reduceLeDiff, Nat.reduceLT, Nat.reduceSub]

theorem demoRom_getD_C23D : demoRom.getD 0xC23D 0 = 0 := by
  rw [demoRom]
  simp only [getD_rep_skip, getD_rep_hit, getD_cons_skip, getD_rep, List.getD_cons_zero,
    Nat.reduceLeDiff, Nat.reduceLT, Nat.reduceSub]

theorem demoRom_getD_10 : demoRom.getD 0x10 0 = 0 := by
  rw [demoRom]
  simp only [getD_rep_skip, getD_rep_hit, getD_cons_skip, getD_rep, List.getD_cons_zero,
    Nat.reduceLeDiff, Nat.reduceLT, Nat.reduceSub]

theorem demoRom_getD_11 : demoRom.getD 0x11 0 = 1 := by
  rw [demoRom]
  simp only [getD_rep_skip, getD_rep_hit, getD_cons_skip, getD_rep, List.getD_cons_zero,
    Nat.reduceLeDiff, Nat.reduceLT, Nat.reduceSub]

theorem demoRom_getD_12 : demoRom.getD 0x12 0 = 1 := by
  rw [demoRom]
  simp only [getD_rep_skip, getD_rep_hit, getD_cons_skip, getD_rep, List.getD_cons_zero,
    Nat.reduceLeDiff, Nat.reduceLT, Nat.reduceSub]

theorem demoRom_getD_13 : demoRom.getD 0x13 0 = 0x20 := by
  rw [demoRom]
  simp only [getD_rep_skip, getD_rep_hit, getD_cons_skip, getD_rep, List.getD_cons_zero,
    Nat.reduceLeDiff, Nat.reduceLT, Nat.reduceSub]

theorem demoRom_getD_14 : demoRom.getD 0x14 0 = 0 := by
  rw [demoRom]
  simp only [getD_rep_skip, getD_rep_hit, getD_cons_skip, getD_rep, List.getD_cons_zero,
    Nat.reduceLeDiff, Nat.reduceLT, Nat.reduceSub]

theorem demoRom_getD_200 : demoRom.getD 0x200 0 = 0 := by
  rw [demoRom]
  simp only [getD_rep_skip, getD_rep_hit, getD_cons_skip, getD_rep, List.getD_cons_zero,
    Nat.reduceLeDiff, Nat.reduceLT, Nat.reduceSub]

theorem demoRom_getD_201 : demoRom.getD 0x201 0 = 0xFF := by
  rw [demoRom]
  simp only [getD_rep_skip, getD_rep_hit, getD_cons_skip, getD_rep, List.getD_cons_zero,
    Nat.reduceLeDiff, Nat.reduceLT, Nat.reduceSub]

theorem demoRom_getD_C7BE : demoRom.getD 0xC7BE 0 = 0 := by
  rw [demoRom]
  simp only [getD_rep_skip, getD_rep_hit, getD_cons_skip, getD_rep, List.getD_cons_zero,
    Nat.reduceLeDiff, Nat.reduceLT, Nat.reduceSub]

theorem demoRom_getD_C7BF : demoRom.getD 0xC7BF 0 = 0 := by
  rw [demoRom]
  simp only [getD_rep_skip, getD_rep_hit, getD_cons_skip, getD_rep, List.getD_cons_zero,
    Nat.reduceLeDiff, Nat.reduceLT, Nat.reduceSub]

theorem demoRom_getD_C7C0 : demoRom.getD 0xC7C0 0 = 1 := by
  rw [demoRom]
  simp only [getD_rep_skip, getD_rep_hit, getD_cons_skip, getD_rep, List.getD_cons_zero,
    Nat.reduceLeDiff, Nat.reduceLT, Nat.reduceSub]

theorem demoRom_getD_C7C1 : demoRom.getD 0xC7C1 0 = 0 := by
  rw [demoRom]
  simp only [getD_rep_skip, getD_rep_hit, getD_cons_skip, getD_rep, List.getD_cons_zero,
    Nat.reduceLeDiff, Nat.reduceLT, Nat.reduceSub]

theorem demoRom_getD_C7C2 : demoRom.getD 0xC7C2 0 = 0 := by
  rw [demoRom]
  simp only [getD_rep_skip, getD_rep_hit, getD_cons_skip, getD_rep, List.getD_cons_zero,
    Nat.reduceLeDiff, Nat.reduceLT, Nat.reduceSub]

theorem demoRom_getD_C7C3 : demoRom.getD 0xC7C3 0 = 0 := by
  rw [demoRom]
  simp only [getD_rep_skip, getD_rep_hit, getD_cons_skip, getD_rep, List.getD_cons_zero,
    Nat.reduceLeDiff, Nat.reduceLT, Nat.reduceSub]

theorem demoRom_getD_C7C4 : demoRom.getD 0xC7C4 0 = 2 := by
  rw [demoRom]
  simp only [getD_rep_skip, getD_rep_hit, getD_cons_skip, getD_rep, List.getD_cons_zero,
    Nat.reduceLeDiff, Nat.reduceLT, Nat.reduceSub]

theorem demoRom_getD_C7C5 : demoRom.getD 0xC7C5 0 = 0 := by
  rw [demoRom]
  simp only [getD_rep_skip, getD_rep_hit, getD_cons_skip, getD_rep, List.getD_cons_zero,
    Nat.reduceLeDiff, Nat.reduceLT, Nat.reduceSub]

theorem demoRom_getD_C7C6 : demoRom.getD 0xC7C6 0 = 0 := by
  rw [demoRom]
  simp only [getD_rep_skip, getD_rep_hit, getD_cons_skip, getD_rep, List.getD_cons_zero,
    Nat.reduceLeDiff, Nat.reduceLT, Nat.reduceSub]

theorem demoRom_zero_mid (m : Nat) (h1 : 0x14 ≤ m) (h2 : m < 0x1AE) :
    demoRom.getD m 0 = 0 := by
  rw [demoRom]
  rw [getD_rep_skip _ _ _ _ (by omega), getD_cons_skip _ _ _ (by omega),
      getD_cons_skip _ _ _ (by omega), getD_cons_skip _ _ _ (by omega),
      getD_rep_hit _ _ _ _ (by omega)]

theorem demoRom_ru16_1AE : read_u16 demoRom 0x1AE = .ok 0x10 := by
  rw [read_u16, if_neg (by rw [demoRom_length]; norm_num)]
  simp only [Int.reduceToNat, Nat.reduceAdd, demoRom_getD_1AE, demoRom_getD_1AF]
  rfl

theorem demoRom_ru8_C23D : read_u8 demoRom 0xC23D = .ok 0 := by
  rw [read_u8, if_neg (by rw [demoRom_length]; norm_num)]
  simp only [Int.reduceToNat, demoRom_getD_C23D]

theorem demoRom_ru8_10 : read_u8 demoRom 0x10 = .ok 0 := by
  rw [read_u8, if_neg (by rw [demoRom_length]; norm_num)]
  simp only [Int.reduceToNat, demoRom_getD_10]

theorem demoRom_ru8_11 : read_u8 demoRom 0x11 = .ok 1 := by
  rw [read_u8, if_neg (by rw [demoRom_length]; norm_num)]
  simp only [Int.reduceToNat, demoRom_getD_11]

theorem demoRom_ru8_12 : read_u8 demoRom 0x12 = .ok 1 := by
  rw [read_u8, if_neg (by rw [demoRom_length]; norm_num)]
  simp only [Int.reduceToNat, demoRom_getD_12]

theorem demoRom_ru16_13 : read_u16 demoRom 0x13 = .ok 0x20 := by
  rw [read_u16, if_neg (by rw [demoRom_length]; norm_num)]
  simp only [Int.reduceToNat, Nat.reduceAdd, demoRom_getD_13, demoRom_getD_14]
  rfl

theorem demoRom_ru8_C7BE : read_u8 demoRom 0xC7BE = .ok 0 := by
  rw [read_u8, if_neg (by rw [demoRom_length]; norm_num)]
  simp only [Int.reduceToNat, demoRom_getD_C7BE]

theorem demoRom_ru16_C7BF : read_u16 demoRom 0xC7BF = .ok 0x100 := by
  rw [read_u16, if_neg (by rw [demoRom_length]; norm_num)]
  simp only [Int.reduceToNat, Nat.reduceAdd, demoRom_getD_C7BF, demoRom_getD_C7C0]
  rfl

theorem demoRom_ru16_C7C1 : read_u16 demoRom 0xC7C1 = .ok 0 := by
  rw [read_u16, if_neg (by rw [demoRom_length]; norm_num)]
  simp only [Int.reduceToNat, Nat.reduceAdd, demoRom_getD_C7C1, demoRom_getD_C7C2]
  rfl

theorem demoRom_ru16_C7C3 : read_u16 demoRom 0xC7C3 = .ok 0x200 := by
  rw [read_u16, if_neg (by rw [demoRom_length]; norm_num)]
  simp only [Int.reduceToNat, Nat.reduceAdd, demoRom_getD_C7C3, demoRom_getD_C7C4]
  rfl

theorem demoRom_ru16_C7C5 : read_u16 demoRom 0xC7C5 = .ok 0 := by
  rw [read_u16, if_neg (by rw [demoRom_length]; norm_num)]
  simp only [Int.reduceToNat, Nat.reduceAdd, demoRom_getD_C7C5, demoRom_getD_C7C6]
  rfl

/-- A slice below the buffer end is the range of its getD reads. -/
theorem pySlice_eq_map (l : List Nat) (a b : Nat) (h : b ≤ l.length) :
    pySlice l a b = (List.range (b - a)).map (fun j => l.getD (a + j) 0) := by
  rw [pySlice]
  apply List.ext_getElem
  · simp; omega
  · intro i h1 h2
    simp only [List.getElem_drop, List.getElem_take, List.getElem_map, List.getElem_range]
    rw [List.getD_eq_getElem]

theorem map_range_zero (f : Nat → Nat) (n : Nat) (h : ∀ j, j < n → f j = 0) :
    (List.range n).map f = List.replicate n 0 := by
  rw [List.eq_replicate_iff]
  constructor
  · simp
  · intro b hb
    rw [List.mem_map] at hb
    obtain ⟨j, hj, rfl⟩ := hb
    rw [List.mem_range] at hj
    exact h j hj

theorem demoRom_slice_map : pySlice demoRom 0x20 0x21 = [0] := by
  rw [pySlice_eq_map demoRom 0x20 0x21 (by rw [demoRom_length]; norm_num)]
  simp only [Nat.reduceSub]
  rw [map_range_zero _ 1 (fun j hj => demoRom_zero_mid (32 + j) (by omega) (by omega))]
  rfl

theorem demoRom_slice_blocks : pySlice demoRom 0x100 0x110 = List.replicate 16 0 := by
  rw [pySlice_eq_map demoRom 0x100 0x110 (by rw [demoRom_length]; norm_num)]
  simp only [Nat.reduceSub]
  exact map_range_zero _ 16 (fun j hj => demoRom_zero_mid (256 + j) (by omega) (by omega))

/-- Reduction of Except.bind over a success value. -/
theorem exBind_ok {a b : Type} (x : a) (f : a → Except String b) :
    Except.bind (Except.ok x) f = f x := rfl

attribute [irreducible] demoRom

theorem demoRom_load_map : load_map demoRom 0 = .ok (0, 1, 1, [0]) := by
  rw [load_map]
  rw [if_neg (by rw [demoRom_length]; norm_num)]
  rw [show ((430 : Int) + 0 * 2) = 430 from by norm_num]
  rw [show ((49725 : Int) + 0) = 49725 from by norm_num]
  rw [demoRom_ru16_1AE, exBind_ok]
  rw [demoRom_ru8_C23D, exBind_ok]
  rw [demoRom_length]
  rw [if_neg (by norm_num)]
  rw [gb_to_file_offset]
  rw [if_pos (by norm_num)]
  rw [exBind_ok]
  rw [show (((16 : Nat) : Int)) = 16 from by norm_num]
  rw [if_neg (by norm_num)]
  rw [demoRom_ru8_10, exBind_ok]
  rw [show ((16 : Int) + 1) = 17 from by norm_num]
  rw [demoRom_ru8_11, exBind_ok]
  rw [show ((16 : Int) + 2) = 18 from by norm_num]
  rw [demoRom_ru8_12, exBind_ok]
  rw [show ((16 : Int) + 3) = 19 from by norm_num]
  rw [demoRom_ru16_13, exBind_ok]
  rw [gb_to_file_offset]
  rw [if_pos (by norm_num)]
  rw [exBind_ok]
  rw [show (((32 : Nat) : Int)) = 32 from by norm_num]
  rw [if_neg (by norm_num)]
  simp only [Nat.reduceMul, Nat.cast_one, Nat.cast_ofNat, Int.reduceAdd, Int.reduceLT,
    reduceIte, Int.reduceToNat, Nat.reduceAdd, demoRom_slice_map, List.length_cons,
    List.length_nil, Nat.reduceLT, Nat.reduceSub]

theorem demoRom_tileset : load_tileset_header demoRom 0 = .ok (0, 0x100, 0, 0x200, 0) := by
  rw [load_tileset_header]
  rw [if_neg (by rw [demoRom_length]; norm_num)]
  simp only [demoRom_ru8_C7BE, demoRom_ru16_C7BF, demoRom_ru16_C7C1, demoRom_ru16_C7C3,
    demoRom_ru16_C7C5, exBind_ok, demoRom_length, Nat.reduceDiv, Nat.reduceLeDiff,
    Int.reduceAdd, Int.reduceMul, Nat.cast_ofNat, Nat.cast_one, Nat.cast_zero, reduceIte]

theorem demoRom_collision : collectCollision demoRom 0x200 = [0] := by
  rw [collectCollision]
  simp only [demoRom_length, Nat.reduceLT, reduceDIte, demoRom_getD_200, Nat.reduceEqDiff,
    reduceIte, Nat.reduceAdd]
  rw [collectCollision]
  simp only [demoRom_length, Nat.reduceLT, reduceDIte, demoRom_getD_201, Nat.reduceEqDiff,
    reduceIte, Nat.reduceAdd]

theorem ljust16_replicate : ljust16 (List.replicate 16 0) = List.replicate 16 0 := by
  simp [ljust16]

theorem demoRom_find_path_body :
    find_path_body demoRom 0 (0, 0) (0, 0) = .ok (some ";") := by
  rw [find_path_body]
  rw [demoRom_load_map, exBind_ok]
  dsimp only
  rw [demoRom_tileset, exBind_ok]
  dsimp only
  rw [gb_to_file_offset]
  rw [if_pos (by norm_num)]
  rw [exBind_ok]
  rw [demoRom_length]
  rw [show (((512 : Nat) : Int)) = 512 from by norm_num]
  rw [if_neg (by norm_num)]
  rw [show Int.toNat 512 = 512 from rfl]
  rw [demoRom_collision]
  rw [gb_to_file_offset]
  rw [if_pos (by norm_num)]
  rw [exBind_ok]
  rw [show (((256 : Nat) : Int)) = 256 from by norm_num]
  rw [if_neg (by norm_num)]
  rw [show ((([0] : List Nat).foldl Nat.max 0 + 1 : Nat) : Int) = 1 from by norm_num]
  rw [if_neg (by norm_num)]
  rw [show ([0] : List Nat).foldl Nat.max 0 + 1 = 1 from rfl]
  rw [show List.range 1 = [0] from rfl]
  rw [List.map_cons, List.map_nil]
  rw [show Int.toNat 256 + 0 * 16 = 256 from rfl]
  rw [show (256 : Nat) + 16 = 272 from by norm_num]
  rw [demoRom_slice_blocks, ljust16_replicate]
  rfl

/-! ## C5: grammar of emitted action strings -/

/-- Tail of the join of an action list after its leading letter. -/
def semiTail : List Char → List Char
  | [] => [';']
  | c :: rest => ';' :: c :: semiTail rest

theorem joinSemi_append_semi (c : Char) (acts : List Char) :
    joinSemi (c :: acts) ++ [';'] = c :: semiTail acts := by
  induction acts generalizing c with
  | nil => rfl
  | cons b rest ih =>
    show (c :: ';' :: joinSemi (b :: rest)) ++ [';'] = c :: ';' :: b :: semiTail rest
    rw [List.cons_append, List.cons_append, ih b]

theorem grammarTail_semiTail (acts : List Char)
    (h : ∀ ch ∈ acts, ch ∈ (['R', 'L', 'D', 'U'] : List Char)) :
    grammarTail (semiTail acts) = true := by
  induction acts with
  | nil => rfl
  | cons b rest ih =>
    have hb := h b (List.mem_cons_self _ _)
    have hr := ih fun ch hch => h ch (List.mem_cons_of_mem _ hch)
    show (decide (b ∈ (['L', 'R', 'U', 'D', 'A', 'B', 'S'] : List Char)) &&
      grammarTail (semiTail rest)) = true
    rw [hr, Bool.and_true]
    simp only [List.mem_cons, List.mem_singleton] at hb
    rcases hb with rfl | rfl | rfl | rfl | hb
    · rfl
    · rfl
    · rfl
    · rfl
    · cases hb

theorem matchesGrammar_join (acts : List Char)
    (hc : ∀ ch ∈ acts, ch ∈ (['R', 'L', 'D', 'U'] : List Char)) :
    (matchesGrammar (String.mk (joinSemi acts ++ [';'])) = true ↔ acts ≠ []) ∧
    (acts = [] → String.mk (joinSemi acts ++ [';']) = ";") := by
  cases acts with
  | nil =>
    refine ⟨?_, fun _ => rfl⟩
    constructor
    · intro h
      exact absurd h (by decide)
    · intro h
      exact absurd rfl h
  | cons c rest =>
    rw [joinSemi_append_semi]
    refine ⟨?_, fun h => by cases h⟩
    have hcm := hc c (List.mem_cons_self _ _)
    have htail := grammarTail_semiTail rest fun ch hch => hc ch (List.mem_cons_of_mem _ hch)
    show (matchesGrammar ⟨c :: semiTail rest⟩ = true ↔ c :: rest ≠ [])
    rw [matchesGrammar]
    constructor
    · intro _
      exact fun h => by cases h
    · intro _
      show (decide (c ∈ (['L', 'R', 'U', 'D', 'A', 'B', 'S'] : List Char)) &&
        grammarTail (semiTail rest)) = true
      rw [htail, Bool.and_true]
      simp only [List.mem_cons, List.mem_singleton] at hcm
      rcases hcm with rfl | rfl | rfl | rfl | hcm
      · rfl
      · rfl
      · rfl
      · rfl
      · cases hcm

/-- Inversion of a successful Except.bind. -/
theorem exBind_eq_ok {a b : Type} (X : Except String a) (f : a → Except String b) (v : b)
    (h : Except.bind X f = .ok v) : ∃ x, X = .ok x ∧ f x = .ok v := by
  cases X with
  | error msg => exact Except.noConfusion h
  | ok x => exact ⟨x, rfl, h⟩

/-- Claim C5 (amended): every string returned by find_path is the
    semicolon-join of the single-letter BFS actions (letters R, L, D, U)
    followed by a final semicolon; it matches the grammar
    ([LRUDABS](;[LRUDABS])*;?) if and only if the action list is nonempty,
    and an empty action list (start equal to end) yields the bare string
    consisting of one semicolon, which does not match the grammar. -/
theorem find_path_grammar (rom : List Nat) (map_id : Int) (s e : Cell) (str : String)
    (h : find_path rom map_id s e = some str) :
    ∃ acts : List Char,
      (∀ ch ∈ acts, ch ∈ (['R', 'L', 'D', 'U'] : List Char)) ∧
      str = String.mk (joinSemi acts ++ [';']) ∧
      (matchesGrammar str = true ↔ acts ≠ []) ∧
      (acts = [] → str = ";") := by
  rw [find_path] at h
  cases hb : find_path_body rom map_id s e with
  | error msg =>
    rw [hb] at h
    exact Option.noConfusion h
  | ok r =>
    rw [hb] at h
    have hr : r = some str := h
    rw [hr] at hb
    clear h hr
    rw [find_path_body] at hb
    obtain ⟨lm, hlm, hb⟩ := exBind_eq_ok _ _ _ hb
    simp only [] at hb
    obtain ⟨th, hth, hb⟩ := exBind_eq_ok _ _ _ hb
    obtain ⟨col_off, hcol, hb⟩ := exBind_eq_ok _ _ _ hb
    split at hb
    · exact Except.noConfusion hb
    obtain ⟨blk_off, hblk, hb⟩ := exBind_eq_ok _ _ _ hb
    split at hb
    · exact Except.noConfusion hb
    split at hb
    · rename_i heq
      have : (none : Option String) = some str := Except.ok.inj hb
      exact Option.noConfusion this
    · rename_i actions coords heq
      have hstr : some (String.mk (joinSemi actions.data ++ [';'])) = some str :=
        Except.ok.inj hb
      have hstr2 : String.mk (joinSemi actions.data ++ [';']) = str :=
        Option.some.inj hstr
      obtain ⟨n, hdist, hvalid, hclen, hslen, hscan, hchars⟩ :=
        bfs_sound _ s e actions coords heq
      obtain ⟨hiff, hempty⟩ := matchesGrammar_join actions.data hchars
      refine ⟨actions.data, hchars, hstr2.symm, ?_, ?_⟩
      · rw [← hstr2]
        exact hiff
      · intro hnil
        rw [← hstr2]
        exact hempty hnil

theorem demoRom_find_path : find_path demoRom 0 (0, 0) (0, 0) = some ";" := by
  rw [find_path, demoRom_find_path_body]

/-- Counterexample to claim C5 as stated: on demoRom with start = end the
    search succeeds with an empty action list, find_path returns the bare
    string of one semicolon, and that string has no leading letter, so it
    does not match the grammar ([LRUDABS](;[LRUDABS])*;?). -/
theorem find_path_semicolon_counterexample :
    find_path demoRom 0 (0, 0) (0, 0) = some ";" ∧ matchesGrammar ";" = false :=
  ⟨demoRom_find_path, by decide⟩

/-- Witness for the amended C5 at a concrete input. -/
theorem find_path_grammar_witness :
    find_path demoRom 0 (0, 0) (0, 0) = some ";" ∧
    ∃ acts : List Char,
      (∀ ch ∈ acts, ch ∈ (['R', 'L', 'D', 'U'] : List Char)) ∧
      (";" : String) = String.mk (joinSemi acts ++ [';']) ∧
      (matchesGrammar ";" = true ↔ acts ≠ []) ∧
      (acts = [] → (";" : String) = ";") :=
  ⟨demoRom_find_path, find_path_grammar demoRom 0 (0, 0) (0, 0) ";" demoRom_find_path⟩

/-! ## C7: load_map dimensions and padding -/

theorem pySlice_length (l : List Nat) (a b : Nat) :
    (pySlice l a b).length = min b l.length - a := by
  simp [pySlice]

theorem gb_nonneg (p b o : Int) (hp : 0 ≤ p) (hb : 0 ≤ b)
    (h : gb_to_file_offset p b = .ok o) : 0 ≤ o := by
  rw [gb_to_file_offset] at h
  split at h
  · have := Except.ok.inj h
    omega
  · split at h
    · exact Except.noConfusion h
    · have := Except.ok.inj h
      have hm : 0 ≤ b * 0x4000 := by positivity
      omega

/-- Claim C7: load_map never succeeds with a zero width or height (those
    raise an error), and on success the returned tile map has length
    exactly width*height: it is the slice of the available ROM bytes at
    the translated tile-map offset, right-padded with 0x00 bytes up to
    width*height when the ROM holds fewer than width*height bytes there. -/
theorem load_map_spec (rom : List Nat) (map_id : Int) (t w h : Nat) (md : List Nat)
    (hok : load_map rom map_id = .ok (t, w, h, md)) :
    0 < w ∧ 0 < h ∧ md.length = w * h ∧
    ∃ off : Nat,
      md = pySlice rom off (off + min (w * h) (rom.length - off)) ++
        List.replicate (w * h - min (w * h) (rom.length - off)) 0 := by
  rw [load_map] at hok
  simp only [] at hok
  split at hok
  · exact Except.noConfusion hok
  obtain ⟨ptr, hptr, hok⟩ := exBind_eq_ok _ _ _ hok
  obtain ⟨bank, hbank, hok⟩ := exBind_eq_ok _ _ _ hok
  split at hok
  · exact Except.noConfusion hok
  obtain ⟨hoff, hhoff, hok⟩ := exBind_eq_ok _ _ _ hok
  split at hok
  · exact Except.noConfusion hok
  obtain ⟨tid, htid, hok⟩ := exBind_eq_ok _ _ _ hok
  obtain ⟨hgt, hhgt, hok⟩ := exBind_eq_ok _ _ _ hok
  obtain ⟨wdt, hwdt, hok⟩ := exBind_eq_ok _ _ _ hok
  obtain ⟨mdp, hmdp, hok⟩ := exBind_eq_ok _ _ _ hok
  obtain ⟨mdo, hmdo, hok⟩ := exBind_eq_ok _ _ _ hok
  split at hok
  · exact Except.noConfusion hok
  rename_i hdim
  have hinj := Except.ok.inj hok
  simp only [Prod.mk.injEq] at hinj
  obtain ⟨rfl, rfl, rfl, hmd⟩ := hinj
  push_neg at hdim
  obtain ⟨hw0, hh0⟩ := hdim
  have hmdo0 : 0 ≤ mdo :=
    gb_nonneg _ _ _ (Int.natCast_nonneg mdp) (Int.natCast_nonneg bank) hmdo
  refine ⟨Nat.pos_of_ne_zero hw0, Nat.pos_of_ne_zero hh0, ?_⟩
  by_cases hc : (rom.length : Int) < mdo + ↑(wdt * hgt)
  · rw [if_pos hc] at hmd
    have hS1 : (0 ⊔ ((rom.length : Int) - mdo)).toNat =
        min (wdt * hgt) (rom.length - mdo.toNat) := by omega
    rw [hS1] at hmd
    have hlen : (pySlice rom mdo.toNat
        (mdo.toNat + min (wdt * hgt) (rom.length - mdo.toNat))).length =
        min (wdt * hgt) (rom.length - mdo.toNat) := by
      rw [pySlice_length]
      omega
    rw [hlen] at hmd
    by_cases hp : min (wdt * hgt) (rom.length - mdo.toNat) < wdt * hgt
    · rw [if_pos hp] at hmd
      constructor
      · rw [← hmd]
        rw [List.length_append, List.length_replicate, hlen]
        omega
      · exact ⟨mdo.toNat, hmd.symm⟩
    · rw [if_neg hp] at hmd
      have hEm : wdt * hgt - min (wdt * hgt) (rom.length - mdo.toNat) = 0 := by omega
      constructor
      · rw [← hmd, hlen]
        omega
      · refine ⟨mdo.toNat, ?_⟩
        rw [hEm, List.replicate_zero, List.append_nil]
        exact hmd.symm
  · rw [if_neg hc] at hmd
    have hEm : min (wdt * hgt) (rom.length - mdo.toNat) = wdt * hgt := by omega
    have hlen : (pySlice rom mdo.toNat (mdo.toNat + wdt * hgt)).length = wdt * hgt := by
      rw [pySlice_length]
      omega
    rw [hlen] at hmd
    rw [if_neg (show ¬(wdt * hgt < wdt * hgt) by omega)] at hmd
    constructor
    · rw [← hmd, hlen]
    · refine ⟨mdo.toNat, ?_⟩
      rw [hEm]
      rw [show wdt * hgt - wdt * hgt = 0 from by omega, List.replicate_zero,
        List.append_nil]
      exact hmd.symm

/-- Witness for C7: load_map on demoRom map 0 returns width 1, height 1
    and the one-byte tile map, matching the slice-and-pad characterization. -/
theorem load_map_spec_witness :
    load_map demoRom 0 = .ok (0, 1, 1, [0]) ∧
    (0 < 1 ∧ 0 < 1 ∧ ([0] : List Nat).length = 1 * 1 ∧
      ∃ off : Nat,
        ([0] : List Nat) = pySlice demoRom off (off + min (1 * 1) (demoRom.length - off)) ++
          List.replicate (1 * 1 - min (1 * 1) (demoRom.length - off)) 0) :=
  ⟨demoRom_load_map, load_map_spec demoRom 0 0 1 1 [0] demoRom_load_map⟩
